/-
Verification of the `tomd` document-to-Markdown conversion pipeline.

This file gives a shallow embedding, in Lean 4, of the parts of the
repository that the specification's claims are about:

  * `LLMEnhancer._split_content` (src/tomd/llm_enhancer.py) — paragraph
    chunking of Markdown content;
  * `URLConverter._fix_relative_urls` (src/tomd/converters/url_converter.py)
    — regex-level rewriting of image/link targets, together with a model of
    CPython 3.11's `urllib.parse.urljoin` (the function the code calls);
  * `URLConverter._extract_content`, `_get_selector_for_url` — content
    extraction over a model of a parsed HTML tree (BeautifulSoup);
  * `URLConverter.convert`, `_is_arxiv_url`, `_get_arxiv_pdf_url`,
    `_download_pdf` — the fetch pipeline, with network and external
    converters supplied as oracle functions;
  * `tomd/__init__.py`'s `tomd` entry point and
    `tomd/converters/__init__.py`'s `get_converter` dispatch.

Strings are modelled as `List Char` (`Str`), matching Python's
code-point-level string semantics (`len`, slicing, `startswith`).
External effects (HTTP fetches, browser rendering, file reads, the
html2text renderer, the PDF/DOCX parsers) are parameters of the model, as
the specification treats them as external collaborators.

Modelling notes, stated once here:
  * `urljoin`/`urlsplit` are translated from CPython 3.11
    `urllib/parse.py`, with two simplifications: the `params` component
    (split at `';'` in the last path segment) is folded into the path, and
    the sanitization that strips control characters and tab/CR/LF from
    URLs is omitted.  Both are invisible for URLs free of `';'` in the
    final path segment and free of control characters.
  * `\d` in the arXiv regexes is modelled as ASCII digits.
  * BeautifulSoup's tag truthiness (a tag with no children is falsy,
    because `Tag.__len__` counts `contents`) is modelled by `nodeTruthy`;
    it matters in the `or`-chains of `_extract_content`.
  * HTML serialization (`str(tag)`) is modelled by a simple serializer
    that is injective enough to distinguish the trees the claims compare.
-/
import Mathlib

namespace Tomd


/-- Strings at Python code-point granularity. -/
abbrev Str := List Char

/-- Shorthand turning a Lean string literal into the model's string type. -/
def str (s : String) : Str := s.data

/-- Python `s.startswith(t)` for a single candidate. -/
def pyStartsWith (pre s : Str) : Bool := pre.isPrefixOf s

/-- Python `s.startswith((t1, ..., tn))`. -/
def pyStartsWithAny (pres : List Str) (s : Str) : Bool :=
  pres.any (fun p => pyStartsWith p s)

/-- Python whitespace characters relevant to `str.strip()` (ASCII range). -/
def isPySpace (c : Char) : Bool :=
  c = ' ' || c = '\t' || c = '\n' || c = '\r' || c = '\x0b' || c = '\x0c'

/-- Python `str.strip()` (no argument): drop leading and trailing whitespace. -/
def pyStrip (s : Str) : Str :=
  ((s.dropWhile isPySpace).reverse.dropWhile isPySpace).reverse

/-- Python `str.lower()` restricted to ASCII case mapping. -/
def toLowerStr (s : Str) : Str := s.map Char.toLower

/-- Split a list at the first occurrence of character `c`:
`splitFirst c l = some (pre, post)` with `l = pre ++ c :: post` and
`c ∉ pre`; `none` when `c` does not occur. -/
def splitFirst (c : Char) : Str → Option (Str × Str)
  | [] => none
  | a :: rest =>
    if a = c then some ([], rest)
    else
      match splitFirst c rest with
      | none => none
      | some (pre, post) => some (a :: pre, post)

/-- Locate the first occurrence of a (nonempty) separator inside a list:
`findSep sep l = some (pre, post)` means `l = pre ++ sep ++ post` and the
occurrence is the leftmost one. -/
def findSep (sep : Str) : Str → Option (Str × Str)
  | [] => none
  | a :: rest =>
    if sep.isPrefixOf (a :: rest) then some ([], (a :: rest).drop sep.length)
    else
      match findSep sep rest with
      | none => none
      | some (pre, post) => some (a :: pre, post)

/-- Fuel-driven worker for `splitList` (structural recursion, so that the
kernel can evaluate it; one unit of fuel per separator occurrence). -/
def splitListF (sep : Str) : Nat → Str → List Str
  | 0, l => [l]
  | fuel + 1, l =>
    match findSep sep l with
    | none => [l]
    | some (pre, post) => pre :: splitListF sep fuel post

/-- Python `content.split(sep)` for a fixed nonempty separator: split on each
non-overlapping occurrence, scanning left to right. -/
def splitList (sep : Str) (l : Str) : List Str :=
  splitListF sep l.length l

/-- Python `sep.join(parts)`. -/
def joinSep (sep : Str) (parts : List Str) : Str :=
  match parts with
  | [] => []
  | [p] => p
  | p :: rest => p ++ sep ++ joinSep sep rest

/- Section: Chunking (`LLMEnhancer._split_content`, llm_enhancer.py lines 34-55) -/
/-- The paragraph separator `"\n\n"`. -/
def blankSep : Str := str "\n\n"

/-- Model: `"\n\n".join(parts)` (Python), as used by the chunker and by
`LLMEnhancer.enhance`'s reassembly step. -/
def joinBlank (parts : List Str) : Str := joinSep blankSep parts

/-- Model: `content.split("\n\n")` (Python). -/
def splitBlank (content : Str) : List Str := splitList blankSep content

/-- The accumulation loop of `_split_content`: `paras` are the remaining
paragraphs, `cur` the paragraphs of the chunk under construction (in
order), `size` the running `current_size`.  Mirrors llm_enhancer.py
lines 41-53: `para_size = len(para) + 2`; a chunk is closed when
`current_size + para_size > max_chunk_size and current_chunk`. -/
def splitLoop (maxSize : Nat) : List Str → List Str → Nat → List Str
  | [], cur, _ => if cur.isEmpty then [] else [joinBlank cur]
  | p :: ps, cur, size =>
    if maxSize < size + (p.length + 2) && !cur.isEmpty then
      joinBlank cur :: splitLoop maxSize ps [p] (p.length + 2)
    else
      splitLoop maxSize ps (cur ++ [p]) (size + (p.length + 2))

/-- Model: `LLMEnhancer._split_content(content, max_chunk_size)`. -/
def splitContent (content : Str) (maxSize : Nat) : List Str :=
  splitLoop maxSize (splitBlank content) [] 0

/-- Proof-support variant of the loop that keeps each chunk as its list of
paragraphs instead of joining it. -/
def groupsLoop (maxSize : Nat) : List Str → List Str → Nat → List (List Str)
  | [], cur, _ => if cur.isEmpty then [] else [cur]
  | p :: ps, cur, size =>
    if maxSize < size + (p.length + 2) && !cur.isEmpty then
      cur :: groupsLoop maxSize ps [p] (p.length + 2)
    else
      groupsLoop maxSize ps (cur ++ [p]) (size + (p.length + 2))

/-- The Python invariant `current_size = sum(len(p) + 2 for p in current_chunk)`. -/
def sumSize (g : List Str) : Nat := (g.map (fun p => p.length + 2)).sum

/- Section: URL resolution: model of CPython 3.11 `urllib.parse`
(`urljoin` is what `_fix_relative_urls` calls on non-skipped targets). -/
/-- One parsed URL, `urlsplit`-style (`params` folded into `path`). -/
structure UrlParts where
  scheme : Str
  netloc : Str
  path : Str
  query : Str
  fragment : Str
deriving DecidableEq

/-- Model: `scheme_chars` of parse.py: ASCII letters, digits, `+`, `-`, `.`. -/
def isSchemeChar (c : Char) : Bool :=
  c.isAlpha || c.isDigit || c = '+' || c = '-' || c = '.'

/-- Scheme extraction in `urlsplit` (parse.py lines 566-572): split at the
first `:` when everything before it is a valid scheme starting with an
ASCII letter; the scheme is lowercased. -/
def splitScheme (url : Str) : Option (Str × Str) :=
  match splitFirst ':' url with
  | none => none
  | some (pre, post) =>
    if (pre.headD ' ').isAlpha && pre.all isSchemeChar && !pre.isEmpty then
      some (toLowerStr pre, post)
    else none

/-- Model: `_splitnetloc` (parse.py line 413): the netloc extends to the first
`/`, `?` or `#`. -/
def netlocEnd (c : Char) : Bool := c = '/' || c = '?' || c = '#'

def splitNetloc (l : Str) : Str × Str :=
  (l.takeWhile (fun c => !netlocEnd c), l.dropWhile (fun c => !netlocEnd c))

/-- Model of `urlsplit(url, scheme=defScheme)` (parse.py lines 453-507). -/
def urlsplitM (defScheme : Str) (url : Str) : UrlParts :=
  let sr :=
    match splitScheme url with
    | some sr => sr
    | none => (defScheme, url)
  let scheme := sr.1
  let nl :=
    match sr.2 with
    | '/' :: '/' :: r => splitNetloc r
    | other => ([], other)
  let netloc := nl.1
  let fr :=
    match splitFirst '#' nl.2 with
    | some pq => pq
    | none => (nl.2, [])
  let pq :=
    match splitFirst '?' fr.1 with
    | some pq => pq
    | none => (fr.1, [])
  ⟨scheme, netloc, pq.1, pq.2, fr.2⟩

/-- Model: `uses_relative` (parse.py line 53). -/
def usesRelative : List Str :=
  [str "", str "ftp", str "http", str "gopher", str "nntp", str "imap",
   str "wais", str "file", str "https", str "shttp", str "mms",
   str "prospero", str "rtsp", str "rtsps", str "rtspu", str "sftp",
   str "svn", str "svn+ssh", str "ws", str "wss"]

/-- Model: `uses_netloc` (parse.py line 58). -/
def usesNetloc : List Str :=
  [str "", str "ftp", str "http", str "gopher", str "nntp", str "telnet",
   str "imap", str "wais", str "file", str "mms", str "https", str "shttp",
   str "snews", str "prospero", str "rtsp", str "rtsps", str "rtspu",
   str "rsync", str "svn", str "svn+ssh", str "sftp", str "nfs",
   str "git", str "git+ssh", str "ws", str "wss"]

/-- Step 1 of `urlunsplit` (parse.py lines 528-530): prepend `//netloc`
when the netloc is nonempty, or when the scheme demands one and the path
does not already look protocol-relative. -/
def joinNetloc (p : UrlParts) : Str :=
  if p.netloc ≠ [] ∨ (p.scheme ≠ [] ∧ p.scheme ∈ usesNetloc ∧
      ¬ pyStartsWith (str "//") p.path = true) then
    str "//" ++ p.netloc ++
      (if p.path ≠ [] ∧ p.path.head? ≠ some '/' then '/' :: p.path else p.path)
  else p.path

/-- Model: `url = scheme + ':' + url` (parse.py line 532). -/
def withScheme (scheme url : Str) : Str :=
  if scheme ≠ [] then scheme ++ ':' :: url else url

/-- Model: `url = url + '?' + query` (parse.py line 534). -/
def withQuery (query url : Str) : Str :=
  if query ≠ [] then url ++ '?' :: query else url

/-- Model: `url = url + '#' + fragment` (parse.py line 536). -/
def withFragment (fragment url : Str) : Str :=
  if fragment ≠ [] then url ++ '#' :: fragment else url

/-- Model of `urlunsplit` (parse.py lines 520-537). -/
def urlunsplitM (p : UrlParts) : Str :=
  withFragment p.fragment (withQuery p.query (withScheme p.scheme (joinNetloc p)))

def splitSlash (l : Str) : List Str := splitList ['/'] l

def joinSlash (parts : List Str) : Str := joinSep ['/'] parts

/-- Model: `segments[1:-1] = filter(None, segments[1:-1])` of `urljoin`. -/
def filterMidAux : List Str → List Str
  | [] => []
  | [a] => [a]
  | a :: rest => if a = [] then filterMidAux rest else a :: filterMidAux rest

def filterMiddle (l : List Str) : List Str :=
  match l with
  | [] => []
  | [a] => [a]
  | a :: rest => a :: filterMidAux rest

/-- The `..`/`.` resolution loop of `urljoin` (`resolved_path`); popping an
empty stack is ignored. -/
def resolveSegs : List Str → List Str → List Str
  | [], acc => acc
  | s :: rest, acc =>
    if s = str ".." then resolveSegs rest acc.dropLast
    else if s = str "." then resolveSegs rest acc
    else resolveSegs rest (acc ++ [s])

/-- The `netloc` variable of `urljoin` after its reassignment under
`if scheme in uses_netloc` (parse.py lines 559-562), in the non-early
case `not netloc`. -/
def joinedNetloc (b u : UrlParts) : Str :=
  if u.scheme ∈ usesNetloc then
    (if u.netloc ≠ [] then u.netloc else b.netloc)
  else u.netloc

/-- The dot-segment path merge of `urljoin` (parse.py lines 573-605). -/
def resolvedPath (bpath upath : Str) : Str :=
  let baseParts := splitSlash bpath
  let baseParts :=
    if baseParts.getLast? = some [] then baseParts else baseParts.dropLast
  let segs :=
    if upath.head? = some '/' then splitSlash upath
    else filterMiddle (baseParts ++ splitSlash upath)
  let resolved := resolveSegs segs []
  let resolved :=
    if segs.getLast? = some (str ".") ∨ segs.getLast? = some (str "..") then
      resolved ++ [[]]
    else resolved
  if joinSlash resolved = [] then str "/" else joinSlash resolved

/-- The tail of `urljoin` once the netloc is settled: the empty-path
shortcut (parse.py lines 564-570) or the path merge. -/
def mergePaths (b u : UrlParts) (netloc : Str) : Str :=
  if u.path = [] then
    urlunsplitM ⟨u.scheme, netloc, b.path,
      (if u.query = [] then b.query else u.query), u.fragment⟩
  else
    urlunsplitM ⟨u.scheme, netloc, resolvedPath b.path u.path, u.query, u.fragment⟩

/-- The body of `urljoin` on parsed components (`url` is the original
target string, returned unchanged for foreign schemes). -/
def urljoinWith (b u : UrlParts) (url : Str) : Str :=
  if ¬ (u.scheme = b.scheme ∧ u.scheme ∈ usesRelative) then url
  else if u.scheme ∈ usesNetloc ∧ u.netloc ≠ [] then
    urlunsplitM ⟨u.scheme, u.netloc, u.path, u.query, u.fragment⟩
  else
    mergePaths b u (joinedNetloc b u)

/-- Model of `urljoin(base, url)` (parse.py lines 539-609). -/
def urljoinM (base url : Str) : Str :=
  if base = [] then url
  else if url = [] then base
  else
    urljoinWith (urlsplitM [] base) (urlsplitM (urlsplitM [] base).scheme url) url

/- Section: Link rewriting (`URLConverter._fix_relative_urls`,
url_converter.py lines 171-196). -/
/-- The tuple in `replace_image`'s `startswith` check (line 180). -/
def imageSkips : List Str := [str "http://", str "https://", str "//", str "data:"]

/-- The tuple in `replace_link`'s `startswith` check (line 190). -/
def linkSkips : List Str := [str "http://", str "https://", str "//", str "#", str "mailto:"]

/-- Model: `replace_image` applied to a matched target (lines 177-182). -/
def replaceImageUrl (baseUrl target : Str) : Str :=
  if pyStartsWithAny imageSkips target then target else urljoinM baseUrl target

/-- Model: `replace_link` applied to a matched target (lines 187-192). -/
def replaceLinkUrl (baseUrl target : Str) : Str :=
  if pyStartsWithAny linkSkips target then target else urljoinM baseUrl target

/-- Match the image pattern `!\\[([^\\]]*)\\]\\(([^)]+)\\)` at the head of the
string: `some (alt, target, rest)` on success.  (`[^\\]]*` necessarily ends
at the first `]`, and `[^)]+` at the first `)`, so first-occurrence
splitting is exactly the regex semantics.) -/
def matchImageAt (l : Str) : Option (Str × Str × Str) :=
  match l with
  | c1 :: c2 :: r =>
    if c1 = '!' ∧ c2 = '[' then
      match splitFirst ']' r with
      | none => none
      | some (alt, r1) =>
        match r1 with
        | c3 :: r2 =>
          if c3 = '(' then
            match splitFirst ')' r2 with
            | none => none
            | some (tgt, r3) => if tgt = [] then none else some (alt, tgt, r3)
          else none
        | [] => none
    else none
  | _ => none

/-- Match the link pattern `\\[([^\\]]+)\\]\\(([^)]+)\\)` at the head. -/
def matchLinkAt (l : Str) : Option (Str × Str × Str) :=
  match l with
  | c1 :: r =>
    if c1 = '[' then
      match splitFirst ']' r with
      | none => none
      | some (txt, r1) =>
        if txt = [] then none
        else
          match r1 with
          | c3 :: r2 =>
            if c3 = '(' then
              match splitFirst ')' r2 with
              | none => none
              | some (tgt, r3) => if tgt = [] then none else some (txt, tgt, r3)
            else none
          | [] => none
    else none
  | [] => none

/-- Fuel-driven worker for the image pass (fuel bounds the scan length). -/
def subImageF (baseUrl : Str) : Nat → Str → Str
  | 0, l => l
  | _ + 1, [] => []
  | fuel + 1, c :: rest =>
    match matchImageAt (c :: rest) with
    | some (alt, tgt, r3) =>
      str "![" ++ alt ++ str "](" ++ replaceImageUrl baseUrl tgt ++ str ")" ++
        subImageF baseUrl fuel r3
    | none => c :: subImageF baseUrl fuel rest

/-- The image pass: `re.sub` with pattern `!\[([^\]]*)\]\(([^)]+)\)` and
replacement `replace_image` (line 184): leftmost, non-overlapping. -/
def subImage (baseUrl : Str) (l : Str) : Str := subImageF baseUrl l.length l

/-- Fuel-driven worker for the link pass. -/
def subLinkF (baseUrl : Str) : Nat → Str → Str
  | 0, l => l
  | _ + 1, [] => []
  | fuel + 1, c :: rest =>
    match matchLinkAt (c :: rest) with
    | some (txt, tgt, r3) =>
      '[' :: txt ++ str "](" ++ replaceLinkUrl baseUrl tgt ++ str ")" ++
        subLinkF baseUrl fuel r3
    | none => c :: subLinkF baseUrl fuel rest

/-- The link pass: `re.sub` with pattern `\[([^\]]+)\]\(([^)]+)\)` and
replacement `replace_link` (line 194). -/
def subLink (baseUrl : Str) (l : Str) : Str := subLinkF baseUrl l.length l

/-- Model: `URLConverter._fix_relative_urls(markdown, base_url)`: images first,
then links. -/
def fixRelativeUrls (markdown baseUrl : Str) : Str :=
  subLink baseUrl (subImage baseUrl markdown)

/- Section: HTML model and content extraction
(`URLConverter._extract_content`, url_converter.py lines 141-169, over a
model of BeautifulSoup's parse tree). -/
/-- A parsed HTML node: element (tag, optional `id`, class list, children)
or text. -/
inductive Node where
  | elem (tag : Str) (idAttr : Option Str) (classes : List Str) (children : List Node)
  | text (s : Str)

/-- A parsed document: the soup's top-level nodes. -/
abbrev Soup := List Node

/-- BeautifulSoup truthiness: `Tag.__len__` counts children, so a
childless tag is falsy in the `or`-chains; a string is falsy when empty. -/
def nodeTruthy : Node → Bool
  | .elem _ _ _ ch => !ch.isEmpty
  | .text s => !s.isEmpty

/-- Simplified `str(tag)` serialization (attribute order fixed: id, class). -/
def attrStr (idAttr : Option Str) (classes : List Str) : Str :=
  (match idAttr with
   | some i => str " id=\"" ++ i ++ str "\""
   | none => []) ++
  (if classes.isEmpty then []
   else str " class=\"" ++ joinSep (str " ") classes ++ str "\"")

mutual

def serializeN : Node → Str
  | .text s => s
  | .elem t i c ch =>
    '<' :: (t ++ attrStr i c ++ '>' :: (serializeL ch ++ '<' :: '/' :: (t ++ ['>'])))

def serializeL : Soup → Str
  | [] => []
  | n :: rest => serializeN n ++ serializeL rest

end

mutual

/-- Model: `soup.find(...)`: first match in document order; the element itself is
tested before its children. -/
def findN (p : Node → Bool) : Node → Option Node
  | .text _ => none
  | .elem t i c ch =>
    if p (.elem t i c ch) then some (.elem t i c ch) else findL p ch

def findL (p : Node → Bool) : Soup → Option Node
  | [] => none
  | n :: rest =>
    match findN p n with
    | some e => some e
    | none => findL p rest

end

/-- The unconditional removal denylist (url_converter.py line 146). -/
def noiseTags : List Str :=
  [str "script", str "style", str "nav", str "footer", str "header"]

mutual

/-- Model: `element.decompose()` for every script/style/nav/footer/header. -/
def cleanN : Node → Option Node
  | .text s => some (.text s)
  | .elem t i c ch => if t ∈ noiseTags then none else some (.elem t i c (cleanL ch))

def cleanL : Soup → Soup
  | [] => []
  | n :: rest =>
    match cleanN n with
    | some m => m :: cleanL rest
    | none => cleanL rest

end

mutual

/-- Document-order (preorder) flattening, used to state what "first
element" means independently of `findN`'s recursion. -/
def preorderN : Node → List Node
  | .text s => [.text s]
  | .elem t i c ch => .elem t i c ch :: preorderL ch

def preorderL : Soup → List Node
  | [] => []
  | n :: rest => preorderN n ++ preorderL rest

end

def isTag (t : Str) : Node → Bool
  | .elem t2 _ _ _ => decide (t2 = t)
  | .text _ => false

/-- Substring containment (Python `in`). -/
def containsSub (needle hay : Str) : Bool :=
  hay.tails.any (fun t => needle.isPrefixOf t)

/-- Model: `soup.find("div", class_=lambda x: x and "content" in x.lower())`:
a `div` one of whose classes contains "content" case-insensitively. -/
def isContentDiv : Node → Bool
  | .elem t _ cs _ =>
    decide (t = str "div") && cs.any (fun c => containsSub (str "content") (toLowerStr c))
  | .text _ => false

/-- Python `a or b` over find results, with tag truthiness. -/
def orTruthy : Option Node → Option Node → Option Node
  | some n, b => if nodeTruthy n then some n else b
  | none, b => b

/-- The auto-detection chain (url_converter.py lines 162-167). -/
def autoDetect (soup : Soup) : Option Node :=
  orTruthy (findL (isTag (str "article")) soup)
    (orTruthy (findL (isTag (str "main")) soup)
      (orTruthy (findL isContentDiv soup) (findL (isTag (str "body")) soup)))

/-- Model: `soup.select_one(selector)` for the selector forms the claims use:
`#id`, `.class`, or a bare tag name. -/
def selectOne (sel : Str) (soup : Soup) : Option Node :=
  match sel with
  | '#' :: rest =>
    findL (fun n => match n with
      | .elem _ (some i) _ _ => decide (i = rest)
      | _ => false) soup
  | '.' :: rest =>
    findL (fun n => match n with
      | .elem _ _ cs _ => cs.any (fun c => decide (c = rest))
      | _ => false) soup
  | t => findL (isTag t) soup

/-- Python `s.replace(old, new)` for nonempty `old`. -/
def pyReplace (old new s : Str) : Str := joinSep new (splitList old s)

/-- Model: `urlparse(url).netloc.replace("www.", "")`
(`_get_selector_for_url`, url_converter.py line 52): note this removes
EVERY occurrence of `www.`, not only a leading one. -/
def domainOf (url : Str) : Str :=
  pyReplace (str "www.") [] (urlsplitM [] url).netloc

/-- Model: `self.site_rules.get(domain)`; rule loading keeps the last entry per
domain, so the table is modelled with unique keys. -/
def lookupRule (rules : List (Str × Str)) (k : Str) : Option Str :=
  (rules.find? (fun r => decide (r.1 = k))).map (fun r => r.2)

def getSelectorForUrl (rules : List (Str × Str)) (url : Str) : Option Str :=
  lookupRule rules (domainOf url)

/-- Python `self.content_selector or self._get_selector_for_url(url)`
(line 150): an empty string is falsy. -/
def pyOrSelector : Option Str → Option Str → Option Str
  | some s, b => if s = [] then b else some s
  | none, b => b

def determineSelector (contentSelector : Option Str) (rules : List (Str × Str))
    (url : Str) : Option Str :=
  pyOrSelector contentSelector (getSelectorForUrl rules url)

/-- Model: `str(main_content) if main_content else str(soup)` (line 169). -/
def finalStr (m : Option Node) (soup : Soup) : Str :=
  match m with
  | some n => if nodeTruthy n then serializeN n else serializeL soup
  | none => serializeL soup

/-- Model: `URLConverter._extract_content(html, url)` on the parsed tree. -/
def extractContent (contentSelector : Option Str) (rules : List (Str × Str))
    (html : Soup) (url : Str) : Str :=
  let soup := cleanL html
  match determineSelector contentSelector rules url with
  | some sel =>
    finalStr
      (match selectOne sel soup with
       | some n => if nodeTruthy n then some n else findL (isTag (str "body")) soup
       | none => findL (isTag (str "body")) soup) soup
  | none => finalStr (autoDetect soup) soup

/-- A document with no article/main/div/body, whose only candidate under
the claim's wording ("first element whose class attribute contains
content") is a `section` element. -/
def soupC1 : Soup :=
  [Node.elem (str "p") none [] [Node.text (str "A")],
   Node.elem (str "section") none [str "content"] [Node.text (str "X")]]

/-- Rule table for the C2 counterexample. -/
def rulesC2www : List (Str × Str) := [(str "blog.www.example.com", str ".article")]

/-- Modelled from the spec: the URL's host with only a LEADING `www.`
stripped (the lookup key the claim describes). -/
def specLeadingWwwDomain (url : Str) : Str :=
  if (str "www.").isPrefixOf (urlsplitM [] url).netloc then
    (urlsplitM [] url).netloc.drop 4
  else (urlsplitM [] url).netloc

/-- Elements and rules for the C2 precedence instance. -/
def mainNodeC2 : Node := Node.elem (str "div") (some (str "main")) [] [Node.text (str "M")]

def articleNodeC2 : Node := Node.elem (str "div") none [str "article"] [Node.text (str "R")]

def soupC2 : Soup := [articleNodeC2, mainNodeC2]

def rulesC2 : List (Str × Str) := [(str "site.test", str ".article")]

/- Section: arXiv handling (`_is_arxiv_url`, `_get_arxiv_pdf_url`,
url_converter.py lines 55-73) and the `convert` pipeline. -/
/-- Try the regex `arxiv\.org/(abs|pdf)/\d+\.\d+` anchored at the head:
on success return the `\d+\.\d+` identifier (group 2 of
`_get_arxiv_pdf_url`'s pattern). -/
def matchArxivAt (l : Str) : Option Str :=
  if (str "arxiv.org/abs/").isPrefixOf l ∨ (str "arxiv.org/pdf/").isPrefixOf l then
    match (l.drop 14).takeWhile Char.isDigit,
          (l.drop 14).drop ((l.drop 14).takeWhile Char.isDigit).length with
    | [], _ => none
    | d1, '.' :: r2 =>
      match r2.takeWhile Char.isDigit with
      | [] => none
      | d2 => some (d1 ++ '.' :: d2)
    | _, _ => none
  else none

/-- Model: `re.search`: leftmost position where the pattern matches. -/
def searchArxiv : Str → Option Str
  | [] => none
  | c :: r =>
    match matchArxivAt (c :: r) with
    | some pid => some pid
    | none => searchArxiv r

/-- Model: `URLConverter._is_arxiv_url(url)`. -/
def isArxivUrl (url : Str) : Bool := (searchArxiv url).isSome

/-- Model: `URLConverter._get_arxiv_pdf_url(url)`. -/
def getArxivPdfUrl (url : Str) : Str :=
  match searchArxiv url with
  | some pid => str "https://arxiv.org/pdf/" ++ pid ++ str ".pdf"
  | none => url

deriving instance DecidableEq for Except

/-- External collaborators of `URLConverter.convert`, as oracles: network
fetchers, PDF download (returning the downloaded payload), the external
PDF converter, the HTML parser, and the html2text renderer. -/
structure ConvertEnv where
  requestsFetch : Str → Except Str Str
  browserFetch : Str → Except Str Str
  downloadPdf : Str → Except Str Str
  pdfConvert : Str → Str
  parseHtml : Str → Soup
  html2md : Str → Str

/-- Result of a conversion together with its trace: which URL (if any)
went to `_download_pdf`, whether extraction and link rewriting ran, and
whether the requests→browser fallback fired. -/
structure ConvertOut where
  res : Except Str Str
  pdfDownloadUrl : Option Str
  ranExtraction : Bool
  ranLinkRewrite : Bool
  usedBrowserFallback : Bool

/-- The default-case tail of `convert` (lines 237-249): extract content,
render to markdown, fix relative URLs, strip, and prefix the source line. -/
def defaultBody (env : ConvertEnv) (contentSelector : Option Str)
    (rules : List (Str × Str)) (url html : Str) : Str :=
  str "# Source: " ++ url ++ str "\n\n" ++
    pyStrip (fixRelativeUrls
      (env.html2md (extractContent contentSelector rules (env.parseHtml html) url)) url)

/-- Model: `URLConverter.convert(url)` (lines 198-249). -/
def convert (env : ConvertEnv) (useBrowser : Bool) (contentSelector : Option Str)
    (rules : List (Str × Str)) (url : Str) : ConvertOut :=
  if isArxivUrl url then
    match env.downloadPdf (getArxivPdfUrl url) with
    | .error e => ⟨.error e, some (getArxivPdfUrl url), false, false, false⟩
    | .ok pdfFile =>
      ⟨.ok (str "# Source: " ++ url ++ str "\n\n" ++ pyStrip (env.pdfConvert pdfFile)),
       some (getArxivPdfUrl url), false, false, false⟩
  else if useBrowser then
    match env.browserFetch url with
    | .error e => ⟨.error e, none, false, false, false⟩
    | .ok html =>
      ⟨.ok (defaultBody env contentSelector rules url html), none, true, true, false⟩
  else
    match env.requestsFetch url with
    | .ok html =>
      ⟨.ok (defaultBody env contentSelector rules url html), none, true, true, false⟩
    | .error _ =>
      match env.browserFetch url with
      | .error e => ⟨.error e, none, false, false, true⟩
      | .ok html =>
        ⟨.ok (defaultBody env contentSelector rules url html), none, true, true, true⟩

/- Section: Local-file dispatch (`get_converter`, converters/__init__.py) and
the `tomd` entry point (tomd/__init__.py), without the optional LLM pass. -/
inductive ConverterKind where
  | html
  | text
  | pdf
  | docx
deriving DecidableEq

/-- Model: `converter_map` (converters/__init__.py lines 34-41), in source order. -/
def converterMap : List (Str × ConverterKind) :=
  [(str ".html", ConverterKind.html), (str ".htm", ConverterKind.html),
   (str ".txt", ConverterKind.text), (str ".md", ConverterKind.text),
   (str ".pdf", ConverterKind.pdf), (str ".docx", ConverterKind.docx)]

/-- Python string `<` (lexicographic by code point). -/
def lexLe : Str → Str → Bool
  | [], _ => true
  | _ :: _, [] => false
  | a :: as_, b :: bs => if a = b then lexLe as_ bs else decide (a < b)

def insertSorted (x : Str) : List Str → List Str
  | [] => [x]
  | y :: r => if lexLe x y then x :: y :: r else y :: insertSorted x r

/-- Python `sorted` on strings (stable; insertion sort is an adequate
model for the duplicate-free key list). -/
def pySorted : List Str → List Str
  | [] => []
  | x :: r => insertSorted x (pySorted r)

/-- Model: `", ".join(sorted(converter_map.keys()))`. -/
def supportedList : Str :=
  joinSep (str ", ") (pySorted (converterMap.map (fun r => r.1)))

/-- Model: `PurePath.name`: the final path component. -/
def pathName (p : Str) : Str := (splitList (str "/") p).getLastD []

/-- Model: `PurePath.suffix`: the final dot-suffix of the name, empty when the
dot is leading or trailing or absent. -/
def pathSuffix (p : Str) : Str :=
  match splitFirst '.' (pathName p).reverse with
  | none => []
  | some (extRev, baseRev) =>
    if extRev ≠ [] ∧ baseRev ≠ [] then '.' :: extRev.reverse else []

/-- Model: `get_converter` keyed on `file_path.suffix.lower()`
(converters/__init__.py lines 16-51). -/
def getConverter (suffix : Str) : Except Str ConverterKind :=
  match converterMap.find? (fun r => decide (r.1 = suffix)) with
  | some r => Except.ok r.2
  | none =>
    Except.error (str "Unsupported file format: " ++ suffix ++
      (str ". Supported formats: " ++ supportedList))

/-- The file system and the external file converters, as oracles. -/
structure FileEnv where
  read : Str → Option Str
  htmlConvert : Str → Str
  pdfConvert : Str → Str
  docxConvert : Str → Str

/-- The four file converters' `convert` methods: each returns its
(external) conversion stripped; text/markdown files pass through. -/
def applyConverter (fe : FileEnv) (k : ConverterKind) (content : Str) : Str :=
  match k with
  | ConverterKind.text => pyStrip content
  | ConverterKind.html => pyStrip (fe.htmlConvert content)
  | ConverterKind.pdf => pyStrip (fe.pdfConvert content)
  | ConverterKind.docx => pyStrip (fe.docxConvert content)

/-- Model: `_is_url` (tomd/__init__.py line 13). -/
def isUrlInput (s : Str) : Bool :=
  pyStartsWithAny [str "http://", str "https://"] s

/-- Model: `tomd(file)` without LLM enhancement (tomd/__init__.py lines 52-90):
URL inputs go to the URL pipeline (default converter configuration),
file inputs through the extension dispatch.  A missing file reports
`File not found`. -/
def tomd (fe : FileEnv) (ue : ConvertEnv) (rules : List (Str × Str))
    (input : Str) : Except Str Str :=
  if isUrlInput input then
    (convert ue false none rules input).res
  else
    match fe.read input with
    | none => Except.error (str "File not found: " ++ input)
    | some content =>
      match getConverter (toLowerStr (pathSuffix input)) with
      | Except.error m => Except.error m
      | Except.ok k => Except.ok (applyConverter fe k content)

/-- A trivial oracle environment for witnesses. -/
def envOk : ConvertEnv :=
  ⟨fun _ => Except.ok (str "H"), fun _ => Except.ok (str "H"),
   fun _ => Except.ok (str "P"), fun p => p, fun _ => [], fun s => s⟩

/-- An environment whose lightweight fetch always fails. -/
def envReqFail : ConvertEnv :=
  ⟨fun _ => Except.error (str "connection refused"), fun _ => Except.ok (str "H"),
   fun _ => Except.error (str "download failed"), fun p => p, fun _ => [], fun s => s⟩

/-- The file system for the C8 counterexample: a text file whose own
content already starts with a source-attribution line. -/
def feC8 : FileEnv :=
  ⟨fun p => if p = str "notes.txt" then some (str "# Source: https://a\n\nbody") else none,
   fun s => s, fun s => s, fun s => s⟩

/- Section: theorems. -/

theorem splitFirst_append (c : Char) :
    ∀ l pre post, splitFirst c l = some (pre, post) → l = pre ++ c :: post := by
  intro l
  induction l with
  | nil => intro pre post h; simp [splitFirst] at h
  | cons a rest ih =>
    intro pre post h
    by_cases hac : a = c
    · simp [splitFirst, hac] at h
      simp [← h.1, ← h.2, hac]
    · simp [splitFirst, hac] at h
      cases hrec : splitFirst c rest with
      | none => simp [hrec] at h
      | some pq =>
        obtain ⟨p, q⟩ := pq
        simp [hrec] at h
        have := ih p q hrec
        simp [← h.1, ← h.2, this]

theorem splitFirst_not_mem (c : Char) :
    ∀ l pre post, splitFirst c l = some (pre, post) → c ∉ pre := by
  intro l
  induction l with
  | nil => intro pre post h; simp [splitFirst] at h
  | cons a rest ih =>
    intro pre post h
    by_cases hac : a = c
    · simp [splitFirst, hac] at h
      rw [h.1]; simp
    · simp [splitFirst, hac] at h
      cases hrec : splitFirst c rest with
      | none => simp [hrec] at h
      | some pq =>
        obtain ⟨p, q⟩ := pq
        simp [hrec] at h
        have := ih p q hrec
        intro hmem
        rw [← h.1] at hmem
        rcases List.mem_cons.mp hmem with h1 | h2
        · exact hac h1.symm
        · exact this h2

theorem splitFirst_of_not_mem (c : Char) :
    ∀ l, c ∉ l → splitFirst c l = none := by
  intro l
  induction l with
  | nil => intro _; rfl
  | cons a rest ih =>
    intro h
    have hac : ¬ a = c := by
      intro hc; exact h (by simp [hc])
    have hrest : c ∉ rest := fun hm => h (List.mem_cons_of_mem _ hm)
    simp [splitFirst, hac, ih hrest]

/-- Model: `splitFirst` on `pre ++ c :: post` with `c ∉ pre` finds exactly that split. -/
theorem splitFirst_exact (c : Char) :
    ∀ pre post, c ∉ pre → splitFirst c (pre ++ c :: post) = some (pre, post) := by
  intro pre
  induction pre with
  | nil => intro post _; simp [splitFirst]
  | cons a rest ih =>
    intro post h
    have hac : ¬ a = c := by
      intro hc; exact h (by simp [hc])
    have hrest : c ∉ rest := fun hm => h (List.mem_cons_of_mem _ hm)
    simp [splitFirst, hac, ih post hrest]

theorem findSep_append (sep : Str) :
    ∀ l pre post, findSep sep l = some (pre, post) → l = pre ++ sep ++ post := by
  intro l
  induction l with
  | nil => intro pre post h; simp [findSep] at h
  | cons a rest ih =>
    intro pre post h
    by_cases hpre : sep.isPrefixOf (a :: rest)
    · simp [findSep, hpre] at h
      obtain ⟨seq, hseq⟩ := List.isPrefixOf_iff_prefix.mp hpre
      rw [h.1, ← h.2, ← hseq]
      simp [List.drop_left]
    · simp [findSep, hpre] at h
      cases hrec : findSep sep rest with
      | none => simp [hrec] at h
      | some pq =>
        obtain ⟨p, q⟩ := pq
        simp [hrec] at h
        have := ih p q hrec
        simp [← h.1, ← h.2, this]

theorem findSep_post_lt (sep : Str) (hsep : sep ≠ []) :
    ∀ l pre post, findSep sep l = some (pre, post) → post.length < l.length := by
  intro l pre post h
  have hl := findSep_append sep l pre post h
  have : l.length = pre.length + sep.length + post.length := by
    simp [hl]; omega
  have hsl : 0 < sep.length := List.length_pos.mpr hsep
  omega

/-- The fuel argument is irrelevant once it covers the input length. -/
theorem splitListF_fuel (sep : Str) (hsep : sep ≠ []) (f : Nat) :
    ∀ l : Str, l.length ≤ f → splitListF sep f l = splitListF sep l.length l := by
  intro l hlf
  cases f with
  | zero =>
    have : l = [] := List.length_eq_zero.mp (Nat.le_zero.mp hlf)
    rw [this]
    rfl
  | succ f =>
    cases hfind : findSep sep l with
    | none =>
      cases hn : l.length with
      | zero => simp [splitListF, hfind]
      | succ n => simp [splitListF, hfind]
    | some pq =>
      obtain ⟨pre, post⟩ := pq
      have hlt := findSep_post_lt sep hsep l pre post hfind
      cases hn : l.length with
      | zero => omega
      | succ n =>
        have h1 : splitListF sep (f + 1) l = pre :: splitListF sep f post := by
          simp [splitListF, hfind]
        have h2 : splitListF sep (n + 1) l = pre :: splitListF sep n post := by
          simp [splitListF, hfind]
        rw [h1, h2,
          splitListF_fuel sep hsep f post (by omega),
          splitListF_fuel sep hsep n post (by omega)]
termination_by (f, 0)

theorem joinSep_cons (sep : Str) (p : Str) (rest : List Str) (h : rest ≠ []) :
    joinSep sep (p :: rest) = p ++ sep ++ joinSep sep rest := by
  cases rest with
  | nil => exact absurd rfl h
  | cons q r => rfl

/-- The part before a leftmost separator occurrence contains no occurrence. -/
theorem findSep_pre_none (sep : Str) :
    ∀ l pre post, findSep sep l = some (pre, post) → findSep sep pre = none := by
  intro l
  induction l with
  | nil => intro pre post h; simp [findSep] at h
  | cons a rest ih =>
    intro pre post h
    by_cases hpre : sep.isPrefixOf (a :: rest)
    · simp [findSep, hpre] at h
      rw [h.1]; rfl
    · simp [findSep, hpre] at h
      cases hrec : findSep sep rest with
      | none => simp [hrec] at h
      | some pq =>
        obtain ⟨p, q⟩ := pq
        simp [hrec] at h
        have hpn := ih p q hrec
        have happ := findSep_append sep rest p q hrec
        have hnp : ¬ sep.isPrefixOf (a :: p) := by
          intro hP
          apply hpre
          have hsub : (a :: p) <+: (a :: rest) := ⟨sep ++ q, by simp [happ]⟩
          have hP2 := List.isPrefixOf_iff_prefix.mp hP
          exact List.isPrefixOf_iff_prefix.mpr (List.IsPrefix.trans hP2 hsub)
        rw [← h.1]
        simp [findSep, hnp, hpn]

theorem splitList_none (sep : Str) (l : Str)
    (h : findSep sep l = none) : splitList sep l = [l] := by
  unfold splitList
  cases hn : l.length with
  | zero => rfl
  | succ n => simp [splitListF, h]

theorem splitList_some (sep : Str) (hsep : sep ≠ []) (l pre post : Str)
    (h : findSep sep l = some (pre, post)) :
    splitList sep l = pre :: splitList sep post := by
  unfold splitList
  have hlt := findSep_post_lt sep hsep l pre post h
  cases hn : l.length with
  | zero => omega
  | succ n =>
    have : splitListF sep (n + 1) l = pre :: splitListF sep n post := by
      simp [splitListF, h]
    rw [this, splitListF_fuel sep hsep n post (by omega)]

theorem splitList_ne_nil (sep : Str) (hsep : sep ≠ []) (l : Str) :
    splitList sep l ≠ [] := by
  cases hfind : findSep sep l with
  | none => rw [splitList_none sep l hfind]; simp
  | some pq =>
    obtain ⟨pre, post⟩ := pq
    rw [splitList_some sep hsep l pre post hfind]; simp

/-- Splitting then joining is the identity: Python's
`sep.join(s.split(sep)) == s`. -/
theorem joinSep_splitList (sep : Str) (hsep : sep ≠ []) (l : Str) :
    joinSep sep (splitList sep l) = l := by
  cases hfind : findSep sep l with
  | none => rw [splitList_none sep l hfind]; rfl
  | some pq =>
    obtain ⟨pre, post⟩ := pq
    have hlt := findSep_post_lt sep hsep l pre post hfind
    have happ := findSep_append sep l pre post hfind
    rw [splitList_some sep hsep l pre post hfind]
    rw [joinSep_cons sep pre _ (splitList_ne_nil sep hsep post)]
    rw [joinSep_splitList sep hsep post]
    exact happ.symm
termination_by l.length

/-- No piece produced by `splitList` contains the separator. -/
theorem splitList_no_sep (sep : Str) (hsep : sep ≠ []) (l : Str) :
    ∀ piece, piece ∈ splitList sep l → findSep sep piece = none := by
  intro piece hmem
  cases hfind : findSep sep l with
  | none =>
    rw [splitList_none sep l hfind] at hmem
    simp at hmem
    rw [hmem]; exact hfind
  | some pq =>
    obtain ⟨pre, post⟩ := pq
    have hlt := findSep_post_lt sep hsep l pre post hfind
    rw [splitList_some sep hsep l pre post hfind] at hmem
    simp only [List.mem_cons] at hmem
    rcases hmem with hmem | hmem
    · rw [hmem]
      exact findSep_pre_none sep l pre post hfind
    · exact splitList_no_sep sep hsep post piece hmem
termination_by l.length

theorem blankSep_ne_nil : blankSep ≠ [] := by decide

theorem splitLoop_eq_groupsLoop (maxSize : Nat) :
    ∀ ps cur size,
      splitLoop maxSize ps cur size = (groupsLoop maxSize ps cur size).map joinBlank := by
  intro ps
  induction ps with
  | nil =>
    intro cur size
    by_cases h : cur.isEmpty <;> simp [splitLoop, groupsLoop, h]
  | cons p rest ih =>
    intro cur size
    by_cases h : maxSize < size + (p.length + 2) && !cur.isEmpty
    · simp [splitLoop, groupsLoop, h, ih]
    · simp [splitLoop, groupsLoop, h, ih]

/-- Every paragraph lands in exactly one group, in order. -/
theorem groupsLoop_join (maxSize : Nat) :
    ∀ ps cur size, cur ≠ [] →
      (groupsLoop maxSize ps cur size).flatten = cur ++ ps := by
  intro ps
  induction ps with
  | nil =>
    intro cur size hcur
    simp [groupsLoop, List.isEmpty_iff, hcur]
  | cons p rest ih =>
    intro cur size hcur
    by_cases h : maxSize < size + (p.length + 2) && !cur.isEmpty
    · simp only [groupsLoop, h, if_pos]
      simp [ih [p] (p.length + 2) (by simp)]
    · simp only [groupsLoop, h, if_neg, Bool.not_eq_true]
      rw [ih (cur ++ [p]) (size + (p.length + 2)) (by simp)]
      simp

theorem groupsLoop_join_nil (maxSize : Nat) (ps : List Str) :
    (groupsLoop maxSize ps [] 0).flatten = ps := by
  cases ps with
  | nil => simp [groupsLoop]
  | cons p rest =>
    have : groupsLoop maxSize (p :: rest) [] 0 = groupsLoop maxSize rest [p] (p.length + 2) := by
      simp [groupsLoop]
    rw [this, groupsLoop_join maxSize rest [p] (p.length + 2) (by simp)]
    simp

/-- No group is empty. -/
theorem groupsLoop_ne_nil (maxSize : Nat) :
    ∀ ps cur size g, g ∈ groupsLoop maxSize ps cur size → g ≠ [] := by
  intro ps
  induction ps with
  | nil =>
    intro cur size g hg
    by_cases h : cur.isEmpty
    · simp [groupsLoop, h] at hg
    · simp [groupsLoop, h] at hg
      rw [hg]
      exact fun hc => by simp [hc] at h
  | cons p rest ih =>
    intro cur size g hg
    by_cases h : maxSize < size + (p.length + 2) && !cur.isEmpty
    · simp only [groupsLoop, h, if_pos, List.mem_cons] at hg
      rcases hg with hg | hg
      · rw [hg]
        have := (Bool.and_eq_true _ _).mp h
        intro hc
        simp [hc] at this
      · exact ih [p] (p.length + 2) g hg
    · simp only [groupsLoop, h, if_neg] at hg
      exact ih (cur ++ [p]) (size + (p.length + 2)) g hg

theorem sumSize_append (g : List Str) (p : Str) :
    sumSize (g ++ [p]) = sumSize g + (p.length + 2) := by
  simp [sumSize]

/-- Size bound: a group of two or more paragraphs has `sumSize ≤ maxSize`.
(The only way a chunk exceeds the bound is when a lone paragraph does.) -/
theorem groupsLoop_size (maxSize : Nat) :
    ∀ ps cur size, size = sumSize cur → (2 ≤ cur.length → size ≤ maxSize) →
      ∀ g ∈ groupsLoop maxSize ps cur size, 2 ≤ g.length → sumSize g ≤ maxSize := by
  intro ps
  induction ps with
  | nil =>
    intro cur size hinv hbound g hg hlen
    by_cases h : cur.isEmpty
    · simp [groupsLoop, h] at hg
    · simp [groupsLoop, h] at hg
      rw [hg] at hlen ⊢
      rw [← hinv]
      exact hbound hlen
  | cons p rest ih =>
    intro cur size hinv hbound g hg hlen
    by_cases h : maxSize < size + (p.length + 2) && !cur.isEmpty
    · simp only [groupsLoop, h, if_pos, List.mem_cons] at hg
      rcases hg with hg | hg
      · rw [hg] at hlen ⊢
        rw [← hinv]
        exact hbound hlen
      · exact ih [p] (p.length + 2) (by simp [sumSize]) (by simp) g hg hlen
    · simp only [groupsLoop, h, if_neg] at hg
      refine ih (cur ++ [p]) (size + (p.length + 2)) ?_ ?_ g hg hlen
      · rw [sumSize_append, hinv]
      · intro hlen2
        simp only [Bool.and_eq_true, Bool.not_eq_true', decide_eq_true_eq, not_and,
          Bool.not_eq_false] at h
        have hcur : cur ≠ [] := by
          intro hc
          rw [hc] at hlen2
          simp at hlen2
        by_contra hgt
        push_neg at hgt
        exact absurd (h (by omega)) (by simp [List.isEmpty_iff, hcur])

/-- Length of a joined nonempty group: `sumSize g - 2`. -/
theorem joinBlank_length (g : List Str) (hg : g ≠ []) :
    (joinBlank g).length + 2 = sumSize g := by
  induction g with
  | nil => exact absurd rfl hg
  | cons p rest ih =>
    cases rest with
    | nil => simp [joinBlank, joinSep, sumSize]
    | cons q r =>
      have hne : (q :: r : List Str) ≠ [] := by simp
      have hih := ih hne
      simp only [joinBlank] at hih ⊢
      rw [joinSep_cons blankSep p (q :: r) hne]
      simp only [List.length_append, sumSize, List.map_cons, List.sum_cons]
      simp only [sumSize, List.map_cons, List.sum_cons] at hih
      have hsep : blankSep.length = 2 := by decide
      omega

theorem joinSep_append_ne (sep : Str) (l1 l2 : List Str) (h1 : l1 ≠ []) (h2 : l2 ≠ []) :
    joinSep sep (l1 ++ l2) = joinSep sep l1 ++ sep ++ joinSep sep l2 := by
  induction l1 with
  | nil => exact absurd rfl h1
  | cons p rest ih =>
    cases rest with
    | nil =>
      simp only [List.nil_append, List.singleton_append]
      rw [joinSep_cons sep p l2 h2]
      rfl
    | cons q r =>
      have hne : (q :: r : List Str) ≠ [] := by simp
      have hne2 : (q :: r : List Str) ++ l2 ≠ [] := by simp
      rw [List.cons_append, joinSep_cons sep p _ hne2, joinSep_cons sep p _ hne,
        ih hne]
      simp [List.append_assoc]

theorem joinSep_flatten (sep : Str) (gs : List (List Str)) (h : ∀ g ∈ gs, g ≠ []) :
    joinSep sep (gs.map (joinSep sep)) = joinSep sep gs.flatten := by
  induction gs with
  | nil => rfl
  | cons g rest ih =>
    cases rest with
    | nil => simp [joinSep]
    | cons g2 r2 =>
      have hg : g ≠ [] := h g (by simp)
      have hrest : ∀ x ∈ g2 :: r2, x ≠ [] := fun x hx => h x (by simp [hx])
      have hg2 : g2 ≠ [] := hrest g2 (by simp)
      have hflat : (g2 :: r2).flatten ≠ [] := by
        simp only [List.flatten_cons]
        intro hc
        exact hg2 (List.append_eq_nil.mp hc).1
      have hmapne : (g2 :: r2).map (joinSep sep) ≠ [] := by simp
      calc joinSep sep ((g :: g2 :: r2).map (joinSep sep))
          = joinSep sep (joinSep sep g :: (g2 :: r2).map (joinSep sep)) := rfl
        _ = joinSep sep g ++ sep ++ joinSep sep ((g2 :: r2).map (joinSep sep)) :=
            joinSep_cons _ _ _ hmapne
        _ = joinSep sep g ++ sep ++ joinSep sep (g2 :: r2).flatten := by rw [ih hrest]
        _ = joinSep sep (g ++ (g2 :: r2).flatten) :=
            (joinSep_append_ne sep g _ hg hflat).symm
        _ = joinSep sep (g :: g2 :: r2).flatten := rfl

/-- Claim C5 (confirmed).  Chunking is lossless: for every input string and
every max chunk size, joining the chunks returned by
`LLMEnhancer._split_content` with the blank-line separator `"\n\n"`
reproduces the original input exactly.  (This is the reassembly step used
by `LLMEnhancer.enhance`, llm_enhancer.py line 133.) -/
theorem chunking_lossless (content : Str) (maxSize : Nat) :
    joinBlank (splitContent content maxSize) = content := by
  unfold splitContent
  rw [splitLoop_eq_groupsLoop]
  unfold joinBlank
  rw [joinSep_flatten blankSep _ (groupsLoop_ne_nil maxSize _ [] 0),
    groupsLoop_join_nil]
  exact joinSep_splitList blankSep blankSep_ne_nil content

/-- Claim C4 (confirmed).  For content above the 3000-character threshold
(the condition under which `LLMEnhancer.enhance` chunks), the splitter
cuts only at blank-line paragraph boundaries: the chunks are the
blank-line joins of consecutive nonempty groups of the paragraph list
(so no paragraph spans two chunks and order is preserved), and every
chunk is either at most 3000 characters long or is a single (oversized)
paragraph of the input. -/
theorem chunk_bounds (content : Str) (_hlong : 3000 < content.length) :
    (∀ c ∈ splitContent content 3000, c.length ≤ 3000 ∨ c ∈ splitBlank content) ∧
    ∃ groups : List (List Str),
      splitContent content 3000 = groups.map joinBlank ∧
      groups.flatten = splitBlank content ∧
      ∀ g ∈ groups, g ≠ [] := by
  have hmap : splitContent content 3000 =
      (groupsLoop 3000 (splitBlank content) [] 0).map joinBlank := by
    unfold splitContent
    exact splitLoop_eq_groupsLoop 3000 (splitBlank content) [] 0
  constructor
  · intro c hc
    rw [hmap] at hc
    obtain ⟨g, hg, hcg⟩ := List.mem_map.mp hc
    have hgne := groupsLoop_ne_nil 3000 (splitBlank content) [] 0 g hg
    cases hglen : g.length with
    | zero => exact absurd (List.length_eq_zero.mp hglen) hgne
    | succ n =>
      cases n with
      | zero =>
        -- singleton group: the chunk is a paragraph of the input
        obtain ⟨p, hp⟩ := List.length_eq_one.mp hglen
        right
        rw [← hcg, hp]
        have hpmem : p ∈ (groupsLoop 3000 (splitBlank content) [] 0).flatten :=
          List.mem_flatten.mpr ⟨g, hg, by simp [hp]⟩
        rw [groupsLoop_join_nil] at hpmem
        have : joinBlank [p] = p := rfl
        rw [this]
        exact hpmem
      | succ m =>
        left
        have hsize := groupsLoop_size 3000 (splitBlank content) [] 0 rfl
          (by intro h2; simp at h2) g hg (by omega)
        have hlen := joinBlank_length g hgne
        rw [← hcg]
        omega
  · exact ⟨groupsLoop 3000 (splitBlank content) [] 0, hmap,
      groupsLoop_join_nil 3000 (splitBlank content),
      groupsLoop_ne_nil 3000 (splitBlank content) [] 0⟩

/-- Witness for `chunk_bounds` at a concrete 3001-character input. -/
theorem chunk_bounds_witness :
    3000 < (List.replicate 3001 'a' : Str).length ∧
    ((∀ c ∈ splitContent (List.replicate 3001 'a') 3000,
        c.length ≤ 3000 ∨ c ∈ splitBlank (List.replicate 3001 'a')) ∧
     ∃ groups : List (List Str),
       splitContent (List.replicate 3001 'a') 3000 = groups.map joinBlank ∧
       groups.flatten = splitBlank (List.replicate 3001 'a') ∧
       ∀ g ∈ groups, g ≠ []) :=
  ⟨by simp only [List.length_replicate]; omega,
   chunk_bounds (List.replicate 3001 'a') (by simp only [List.length_replicate]; omega)⟩

/-- A successful image match consumes at least the bracketed body. -/
theorem matchImageAt_lt (l alt tgt r3 : Str)
    (h : matchImageAt l = some (alt, tgt, r3)) : r3.length < l.length := by
  cases l with
  | nil => simp [matchImageAt] at h
  | cons c1 l1 =>
    cases l1 with
    | nil => simp [matchImageAt] at h
    | cons c2 r =>
      simp only [matchImageAt] at h
      by_cases hc : c1 = '!' ∧ c2 = '['
      · rw [if_pos hc] at h
        cases h1 : splitFirst ']' r with
        | none => rw [h1] at h; cases h
        | some p1 =>
          obtain ⟨a1, r1⟩ := p1
          rw [h1] at h
          cases r1 with
          | nil => cases h
          | cons c3 r2 =>
            by_cases hc3 : c3 = '('
            · simp only [hc3, if_pos, ite_true, if_true] at h
              cases h2 : splitFirst ')' r2 with
              | none => rw [h2] at h; cases h
              | some p2 =>
                obtain ⟨t2, q2⟩ := p2
                rw [h2] at h
                by_cases ht : t2 = []
                · simp [ht] at h
                · simp only [ht, ite_false, if_neg, Option.some.injEq] at h
                  have e1 := splitFirst_append ']' r a1 (c3 :: r2) h1
                  have e2 := splitFirst_append ')' r2 t2 q2 h2
                  have hr : r.length = a1.length + 1 + (c3 :: r2).length := by
                    rw [e1]; simp; omega
                  have hr2 : r2.length = t2.length + 1 + q2.length := by
                    rw [e2]; simp; omega
                  have hq : q2 = r3 := by
                    have h' := h
                    simp only [Prod.mk.injEq] at h'
                    exact h'.2.2
                  rw [← hq]
                  simp only [List.length_cons] at hr ⊢
                  omega
            · simp [hc3] at h
      · rw [if_neg hc] at h; cases h

/-- A successful link match consumes at least the bracketed body. -/
theorem matchLinkAt_lt (l txt tgt r3 : Str)
    (h : matchLinkAt l = some (txt, tgt, r3)) : r3.length < l.length := by
  cases l with
  | nil => simp [matchLinkAt] at h
  | cons c1 r =>
    simp only [matchLinkAt] at h
    by_cases hc : c1 = '['
    · rw [if_pos hc] at h
      cases h1 : splitFirst ']' r with
      | none => rw [h1] at h; cases h
      | some p1 =>
        obtain ⟨a1, r1⟩ := p1
        rw [h1] at h
        by_cases ha : a1 = []
        · simp [ha] at h
        · simp only [ha, ite_false, if_neg] at h
          cases r1 with
          | nil => cases h
          | cons c3 r2 =>
            by_cases hc3 : c3 = '('
            · simp only [hc3, if_pos, ite_true, if_true] at h
              cases h2 : splitFirst ')' r2 with
              | none => rw [h2] at h; cases h
              | some p2 =>
                obtain ⟨t2, q2⟩ := p2
                rw [h2] at h
                by_cases ht : t2 = []
                · simp [ht] at h
                · simp only [ht, ite_false, if_neg, Option.some.injEq] at h
                  have e1 := splitFirst_append ']' r a1 (c3 :: r2) h1
                  have e2 := splitFirst_append ')' r2 t2 q2 h2
                  have hr : r.length = a1.length + 1 + (c3 :: r2).length := by
                    rw [e1]; simp; omega
                  have hr2 : r2.length = t2.length + 1 + q2.length := by
                    rw [e2]; simp; omega
                  have hq : q2 = r3 := by
                    have h' := h
                    simp only [Prod.mk.injEq] at h'
                    exact h'.2.2
                  rw [← hq]
                  simp only [List.length_cons] at hr ⊢
                  omega
            · simp [hc3] at h
    · rw [if_neg hc] at h; cases h

theorem subImageF_fuel (baseUrl : Str) (f : Nat) :
    ∀ l : Str, l.length ≤ f → subImageF baseUrl f l = subImageF baseUrl l.length l := by
  intro l hlf
  cases f with
  | zero =>
    have : l = [] := List.length_eq_zero.mp (Nat.le_zero.mp hlf)
    rw [this]
    rfl
  | succ f =>
    cases l with
    | nil => simp [subImageF]
    | cons c rest =>
      cases hm : matchImageAt (c :: rest) with
      | some v =>
        obtain ⟨alt, tgt, r3⟩ := v
        have hlt := matchImageAt_lt (c :: rest) alt tgt r3 hm
        have h1 : subImageF baseUrl (f + 1) (c :: rest) =
            str "![" ++ alt ++ str "](" ++ replaceImageUrl baseUrl tgt ++ str ")" ++
              subImageF baseUrl f r3 := by
          simp [subImageF, hm]
        have h2 : subImageF baseUrl (rest.length + 1) (c :: rest) =
            str "![" ++ alt ++ str "](" ++ replaceImageUrl baseUrl tgt ++ str ")" ++
              subImageF baseUrl rest.length r3 := by
          simp [subImageF, hm]
        simp only [List.length_cons, h1, h2]
        rw [subImageF_fuel baseUrl f r3 (by simp only [List.length_cons] at hlt hlf; omega),
          subImageF_fuel baseUrl rest.length r3 (by simp only [List.length_cons] at hlt; omega)]
      | none =>
        have h1 : subImageF baseUrl (f + 1) (c :: rest) =
            c :: subImageF baseUrl f rest := by
          simp [subImageF, hm]
        have h2 : subImageF baseUrl (rest.length + 1) (c :: rest) =
            c :: subImageF baseUrl rest.length rest := by
          simp [subImageF, hm]
        simp only [List.length_cons, h1, h2]
        rw [subImageF_fuel baseUrl f rest (by simp at hlf; omega)]
termination_by (f, 0)

theorem subImage_nil (baseUrl : Str) : subImage baseUrl [] = [] := rfl

theorem subImage_match (baseUrl : Str) (c : Char) (rest alt tgt r3 : Str)
    (hm : matchImageAt (c :: rest) = some (alt, tgt, r3)) :
    subImage baseUrl (c :: rest) =
      str "![" ++ alt ++ str "](" ++ replaceImageUrl baseUrl tgt ++ str ")" ++
        subImage baseUrl r3 := by
  unfold subImage
  have hlt := matchImageAt_lt (c :: rest) alt tgt r3 hm
  have h1 : subImageF baseUrl ((c :: rest).length) (c :: rest) =
      str "![" ++ alt ++ str "](" ++ replaceImageUrl baseUrl tgt ++ str ")" ++
        subImageF baseUrl rest.length r3 := by
    simp [subImageF, hm]
  rw [h1, subImageF_fuel baseUrl rest.length r3 (by simp at hlt ⊢; omega)]

theorem subImage_nomatch (baseUrl : Str) (c : Char) (rest : Str)
    (hm : matchImageAt (c :: rest) = none) :
    subImage baseUrl (c :: rest) = c :: subImage baseUrl rest := by
  unfold subImage
  simp [subImageF, hm]

theorem subLinkF_fuel (baseUrl : Str) (f : Nat) :
    ∀ l : Str, l.length ≤ f → subLinkF baseUrl f l = subLinkF baseUrl l.length l := by
  intro l hlf
  cases f with
  | zero =>
    have : l = [] := List.length_eq_zero.mp (Nat.le_zero.mp hlf)
    rw [this]
    rfl
  | succ f =>
    cases l with
    | nil => simp [subLinkF]
    | cons c rest =>
      cases hm : matchLinkAt (c :: rest) with
      | some v =>
        obtain ⟨txt, tgt, r3⟩ := v
        have hlt := matchLinkAt_lt (c :: rest) txt tgt r3 hm
        have h1 : subLinkF baseUrl (f + 1) (c :: rest) =
            '[' :: txt ++ str "](" ++ replaceLinkUrl baseUrl tgt ++ str ")" ++
              subLinkF baseUrl f r3 := by
          simp [subLinkF, hm]
        have h2 : subLinkF baseUrl (rest.length + 1) (c :: rest) =
            '[' :: txt ++ str "](" ++ replaceLinkUrl baseUrl tgt ++ str ")" ++
              subLinkF baseUrl rest.length r3 := by
          simp [subLinkF, hm]
        simp only [List.length_cons, h1, h2]
        rw [subLinkF_fuel baseUrl f r3 (by simp only [List.length_cons] at hlt hlf; omega),
          subLinkF_fuel baseUrl rest.length r3 (by simp only [List.length_cons] at hlt; omega)]
      | none =>
        have h1 : subLinkF baseUrl (f + 1) (c :: rest) =
            c :: subLinkF baseUrl f rest := by
          simp [subLinkF, hm]
        have h2 : subLinkF baseUrl (rest.length + 1) (c :: rest) =
            c :: subLinkF baseUrl rest.length rest := by
          simp [subLinkF, hm]
        simp only [List.length_cons, h1, h2]
        rw [subLinkF_fuel baseUrl f rest (by simp at hlf; omega)]
termination_by (f, 0)

theorem subLink_nil (baseUrl : Str) : subLink baseUrl [] = [] := rfl

theorem subLink_match (baseUrl : Str) (c : Char) (rest txt tgt r3 : Str)
    (hm : matchLinkAt (c :: rest) = some (txt, tgt, r3)) :
    subLink baseUrl (c :: rest) =
      '[' :: txt ++ str "](" ++ replaceLinkUrl baseUrl tgt ++ str ")" ++
        subLink baseUrl r3 := by
  unfold subLink
  have hlt := matchLinkAt_lt (c :: rest) txt tgt r3 hm
  have h1 : subLinkF baseUrl ((c :: rest).length) (c :: rest) =
      '[' :: txt ++ str "](" ++ replaceLinkUrl baseUrl tgt ++ str ")" ++
        subLinkF baseUrl rest.length r3 := by
    simp [subLinkF, hm]
  rw [h1, subLinkF_fuel baseUrl rest.length r3 (by simp at hlt ⊢; omega)]

theorem subLink_nomatch (baseUrl : Str) (c : Char) (rest : Str)
    (hm : matchLinkAt (c :: rest) = none) :
    subLink baseUrl (c :: rest) = c :: subLink baseUrl rest := by
  unfold subLink
  simp [subLinkF, hm]

/-- Model: `urlunsplit` output starts with `scheme://` whenever the netloc and
scheme are nonempty. -/
theorem withQuery_starts (q pre u : Str) (h : ∃ t, u = pre ++ t) :
    ∃ t, withQuery q u = pre ++ t := by
  obtain ⟨t, ht⟩ := h
  unfold withQuery
  by_cases hq : q = []
  · rw [if_neg (fun hc => hc hq)]
    exact ⟨t, ht⟩
  · rw [if_pos hq]
    exact ⟨t ++ '?' :: q, by rw [ht, List.append_assoc]⟩

theorem withFragment_starts (fr pre u : Str) (h : ∃ t, u = pre ++ t) :
    ∃ t, withFragment fr u = pre ++ t := by
  obtain ⟨t, ht⟩ := h
  unfold withFragment
  by_cases hf : fr = []
  · rw [if_neg (fun hc => hc hf)]
    exact ⟨t, ht⟩
  · rw [if_pos hf]
    exact ⟨t ++ '#' :: fr, by rw [ht, List.append_assoc]⟩

theorem urlunsplitM_starts (p : UrlParts) (hn : p.netloc ≠ []) (hs : p.scheme ≠ []) :
    ∃ t, urlunsplitM p = (p.scheme ++ str "://") ++ t := by
  unfold urlunsplitM
  apply withFragment_starts
  apply withQuery_starts
  unfold withScheme joinNetloc
  rw [if_pos (Or.inl hn), if_pos hs]
  refine ⟨p.netloc ++ (if p.path ≠ [] ∧ p.path.head? ≠ some '/' then '/' :: p.path
    else p.path), ?_⟩
  simp [str, List.append_assoc]

/-- Model: `urlsplit` of the empty string is all-empty. -/
theorem urlsplitM_nil (defScheme : Str) :
    urlsplitM defScheme [] = ⟨defScheme, [], [], [], []⟩ := rfl

/-- On a target whose scheme is neither the base's nor relative-capable,
`urljoin` returns the target unchanged; `data:`-targets are the instance
that matters for the rewriting claims. -/
theorem urljoinM_data (base r : Str)
    (hbs : (urlsplitM [] base).scheme = str "http" ∨ (urlsplitM [] base).scheme = str "https") :
    urljoinM base (str "data:" ++ r) = str "data:" ++ r := by
  have hbne : base ≠ [] := by
    intro hb
    rw [hb, urlsplitM_nil] at hbs
    rcases hbs with h | h <;> cases h
  unfold urljoinM
  rw [if_neg hbne]
  have hune : str "data:" ++ r ≠ [] := by simp [str]
  rw [if_neg (by simpa using hune)]
  have hscheme : splitScheme (str "data:" ++ r) = some (str "data", r) := by
    simp [str, splitScheme, splitFirst, toLowerStr, isSchemeChar]
  have husch : (urlsplitM (urlsplitM [] base).scheme (str "data:" ++ r)).scheme = str "data" := by
    unfold urlsplitM
    rw [hscheme]
  have hcond : ¬ ((urlsplitM (urlsplitM [] base).scheme (str "data:" ++ r)).scheme =
      (urlsplitM [] base).scheme ∧
      (urlsplitM (urlsplitM [] base).scheme (str "data:" ++ r)).scheme ∈ usesRelative) := by
    intro hc
    rw [husch] at hc
    rcases hbs with h | h <;> rw [h] at hc <;> exact absurd hc.1 (by decide)
  unfold urljoinWith
  rw [if_pos hcond]

/-- For a base URL that parses to an `http`/`https` scheme with a nonempty
netloc, `urljoin` either returns the target unchanged or returns a string
starting with `scheme://`. -/
theorem urljoinM_shape (base tgt : Str)
    (hbs : (urlsplitM [] base).scheme = str "http" ∨ (urlsplitM [] base).scheme = str "https")
    (hbn : (urlsplitM [] base).netloc ≠ [])
    (ht : tgt ≠ []) :
    urljoinM base tgt = tgt ∨
    ∃ t, urljoinM base tgt = ((urlsplitM [] base).scheme ++ str "://") ++ t := by
  have hbne : base ≠ [] := by
    intro hb
    rw [hb, urlsplitM_nil] at hbn
    exact hbn rfl
  unfold urljoinM
  rw [if_neg hbne, if_neg ht]
  unfold urljoinWith
  by_cases hcond : (urlsplitM (urlsplitM [] base).scheme tgt).scheme = (urlsplitM [] base).scheme ∧
      (urlsplitM (urlsplitM [] base).scheme tgt).scheme ∈ usesRelative
  · rw [if_neg (not_not_intro hcond)]
    have hsne : (urlsplitM (urlsplitM [] base).scheme tgt).scheme ≠ [] := by
      rw [hcond.1]
      rcases hbs with h | h <;> rw [h] <;> simp [str]
    have husenet : (urlsplitM (urlsplitM [] base).scheme tgt).scheme ∈ usesNetloc := by
      rw [hcond.1]
      rcases hbs with h | h <;> rw [h] <;> decide
    by_cases hun : (urlsplitM (urlsplitM [] base).scheme tgt).scheme ∈ usesNetloc ∧
        (urlsplitM (urlsplitM [] base).scheme tgt).netloc ≠ []
    · rw [if_pos hun]
      right
      obtain ⟨t, htp⟩ := urlunsplitM_starts
        ⟨(urlsplitM (urlsplitM [] base).scheme tgt).scheme,
         (urlsplitM (urlsplitM [] base).scheme tgt).netloc,
         (urlsplitM (urlsplitM [] base).scheme tgt).path,
         (urlsplitM (urlsplitM [] base).scheme tgt).query,
         (urlsplitM (urlsplitM [] base).scheme tgt).fragment⟩ hun.2 hsne
      refine ⟨t, ?_⟩
      rw [htp]
      rw [show (UrlParts.mk (urlsplitM (urlsplitM [] base).scheme tgt).scheme
        (urlsplitM (urlsplitM [] base).scheme tgt).netloc
        (urlsplitM (urlsplitM [] base).scheme tgt).path
        (urlsplitM (urlsplitM [] base).scheme tgt).query
        (urlsplitM (urlsplitM [] base).scheme tgt).fragment).scheme =
        (urlsplitM (urlsplitM [] base).scheme tgt).scheme from rfl, hcond.1]
    · rw [if_neg hun]
      have hunl : (urlsplitM (urlsplitM [] base).scheme tgt).netloc = [] := by
        by_contra hc
        exact hun ⟨husenet, hc⟩
      have hjn : joinedNetloc (urlsplitM [] base) (urlsplitM (urlsplitM [] base).scheme tgt) =
          (urlsplitM [] base).netloc := by
        unfold joinedNetloc
        rw [if_pos husenet, if_neg (not_not_intro hunl)]
      rw [hjn]
      unfold mergePaths
      by_cases hup : (urlsplitM (urlsplitM [] base).scheme tgt).path = []
      · rw [if_pos hup]
        right
        obtain ⟨t, htp⟩ := urlunsplitM_starts
          ⟨(urlsplitM (urlsplitM [] base).scheme tgt).scheme, (urlsplitM [] base).netloc,
           (urlsplitM [] base).path,
           (if (urlsplitM (urlsplitM [] base).scheme tgt).query = [] then
              (urlsplitM [] base).query
            else (urlsplitM (urlsplitM [] base).scheme tgt).query),
           (urlsplitM (urlsplitM [] base).scheme tgt).fragment⟩ hbn hsne
        refine ⟨t, ?_⟩
        rw [htp]
        rw [show (UrlParts.mk (urlsplitM (urlsplitM [] base).scheme tgt).scheme
          (urlsplitM [] base).netloc (urlsplitM [] base).path
          (if (urlsplitM (urlsplitM [] base).scheme tgt).query = [] then
              (urlsplitM [] base).query
            else (urlsplitM (urlsplitM [] base).scheme tgt).query)
          (urlsplitM (urlsplitM [] base).scheme tgt).fragment).scheme =
          (urlsplitM (urlsplitM [] base).scheme tgt).scheme from rfl, hcond.1]
      · rw [if_neg hup]
        right
        obtain ⟨t, htp⟩ := urlunsplitM_starts
          ⟨(urlsplitM (urlsplitM [] base).scheme tgt).scheme, (urlsplitM [] base).netloc,
           resolvedPath (urlsplitM [] base).path (urlsplitM (urlsplitM [] base).scheme tgt).path,
           (urlsplitM (urlsplitM [] base).scheme tgt).query,
           (urlsplitM (urlsplitM [] base).scheme tgt).fragment⟩ hbn hsne
        refine ⟨t, ?_⟩
        rw [htp]
        rw [show (UrlParts.mk (urlsplitM (urlsplitM [] base).scheme tgt).scheme
          (urlsplitM [] base).netloc
          (resolvedPath (urlsplitM [] base).path (urlsplitM (urlsplitM [] base).scheme tgt).path)
          (urlsplitM (urlsplitM [] base).scheme tgt).query
          (urlsplitM (urlsplitM [] base).scheme tgt).fragment).scheme =
          (urlsplitM (urlsplitM [] base).scheme tgt).scheme from rfl, hcond.1]
  · rw [if_pos hcond]
    left
    rfl

/-- Targets of the shape `scheme://...` with `scheme ∈ {http, https}` pass
the `startswith` screen of `replace_link`. -/
theorem linkSkips_of_scheme (sch t : Str)
    (h : sch = str "http" ∨ sch = str "https") :
    pyStartsWithAny linkSkips ((sch ++ str "://") ++ t) = true := by
  rcases h with h | h <;> rw [h] <;>
    simp [pyStartsWithAny, pyStartsWith, linkSkips, str, List.isPrefixOf]

/-- Central stability lemma: for a well-formed `http(s)` base URL, the
link pass leaves the output of the image rule unchanged. -/
theorem replaceLink_on_image_output (base tgt : Str)
    (hbs : (urlsplitM [] base).scheme = str "http" ∨ (urlsplitM [] base).scheme = str "https")
    (hbn : (urlsplitM [] base).netloc ≠ [])
    (ht : tgt ≠ []) :
    replaceLinkUrl base (replaceImageUrl base tgt) = replaceImageUrl base tgt := by
  by_cases himg : pyStartsWithAny imageSkips tgt = true
  · rw [replaceImageUrl, if_pos himg]
    have hcases : pyStartsWith (str "http://") tgt = true ∨
        pyStartsWith (str "https://") tgt = true ∨
        pyStartsWith (str "//") tgt = true ∨
        pyStartsWith (str "data:") tgt = true := by
      simpa [pyStartsWithAny, imageSkips] using himg
    rcases hcases with h | h | h | h
    · rw [replaceLinkUrl, if_pos (by simp [pyStartsWithAny, linkSkips, h])]
    · rw [replaceLinkUrl, if_pos (by simp [pyStartsWithAny, linkSkips, h])]
    · rw [replaceLinkUrl, if_pos (by simp [pyStartsWithAny, linkSkips, h])]
    · obtain ⟨r, hr⟩ := List.isPrefixOf_iff_prefix.mp h
      rw [← hr]
      have hnl : pyStartsWithAny linkSkips (str "data:" ++ r) = false := by
        simp [pyStartsWithAny, pyStartsWith, linkSkips, str, List.isPrefixOf]
      rw [replaceLinkUrl, if_neg (by rw [hnl]; simp)]
      exact urljoinM_data base r hbs
  · rw [replaceImageUrl, if_neg himg]
    rcases urljoinM_shape base tgt hbs hbn ht with hjt | ⟨t, hjt⟩
    · rw [hjt, replaceLinkUrl]
      by_cases hl : pyStartsWithAny linkSkips tgt = true
      · rw [if_pos hl]
      · rw [if_neg hl]
        exact hjt
    · rw [hjt, replaceLinkUrl, if_pos (linkSkips_of_scheme _ t hbs)]

theorem matchImageAt_construct (alt tgt rest : Str) (halt : ']' ∉ alt)
    (ht0 : tgt ≠ []) (ht1 : ')' ∉ tgt) :
    matchImageAt ('!' :: '[' :: (alt ++ ']' :: '(' :: (tgt ++ ')' :: rest))) =
      some (alt, tgt, rest) := by
  simp only [matchImageAt,
    splitFirst_exact ']' alt ('(' :: (tgt ++ ')' :: rest)) halt,
    splitFirst_exact ')' tgt rest ht1]
  simp [ht0]

theorem matchLinkAt_construct (txt tgt rest : Str) (htxt : ']' ∉ txt)
    (htne : txt ≠ []) (ht0 : tgt ≠ []) (ht1 : ')' ∉ tgt) :
    matchLinkAt ('[' :: (txt ++ ']' :: '(' :: (tgt ++ ')' :: rest))) =
      some (txt, tgt, rest) := by
  simp only [matchLinkAt,
    splitFirst_exact ']' txt ('(' :: (tgt ++ ')' :: rest)) htxt,
    splitFirst_exact ')' tgt rest ht1]
  simp [ht0, htne]

/-- The link pass is the identity on text with no `[`. -/
theorem subLink_no_bracket (base : Str) (l : Str) (h : '[' ∉ l) :
    subLink base l = l := by
  induction l with
  | nil => rfl
  | cons c rest ih =>
    have hc : ¬ c = '[' := fun hc => h (by simp [hc])
    have hm : matchLinkAt (c :: rest) = none := by
      simp only [matchLinkAt]
      rw [if_neg hc]
    rw [subLink_nomatch base c rest hm,
      ih (fun hm2 => h (List.mem_cons_of_mem _ hm2))]

/-- Image constructs survive both passes with exactly the image rule
applied, whenever the base URL is a well-formed `http(s)` URL and neither
the original nor the resolved target can confuse the bracket scanner. -/
theorem image_construct_stable (base alt tgt : Str)
    (halt : ']' ∉ alt)
    (ht0 : tgt ≠ []) (ht1 : ')' ∉ tgt)
    (hT1 : ')' ∉ replaceImageUrl base tgt)
    (hT2 : '[' ∉ replaceImageUrl base tgt)
    (hT0 : replaceImageUrl base tgt ≠ [])
    (hbs : (urlsplitM [] base).scheme = str "http" ∨
           (urlsplitM [] base).scheme = str "https")
    (hbn : (urlsplitM [] base).netloc ≠ []) :
    fixRelativeUrls (str "![" ++ alt ++ str "](" ++ tgt ++ str ")") base =
      str "![" ++ alt ++ str "](" ++ replaceImageUrl base tgt ++ str ")" := by
  have hshape : str "![" ++ alt ++ str "](" ++ tgt ++ str ")" =
      '!' :: '[' :: (alt ++ ']' :: '(' :: (tgt ++ ')' :: ([] : Str))) := by
    simp [str]
  unfold fixRelativeUrls
  rw [hshape]
  have hm := matchImageAt_construct alt tgt [] halt ht0 ht1
  rw [subImage_match base '!' ('[' :: (alt ++ ']' :: '(' :: (tgt ++ ')' :: []))) alt tgt [] hm,
    subImage_nil, List.append_nil]
  have hshape2 : str "![" ++ alt ++ str "](" ++ replaceImageUrl base tgt ++ str ")" =
      '!' :: '[' :: (alt ++ ']' :: '(' :: (replaceImageUrl base tgt ++ ')' :: ([] : Str))) := by
    simp [str]
  rw [hshape2]
  have hlm : matchLinkAt ('!' :: '[' ::
      (alt ++ ']' :: '(' :: (replaceImageUrl base tgt ++ ')' :: ([] : Str)))) = none := by
    simp only [matchLinkAt]
    rw [if_neg (by decide)]
  rw [subLink_nomatch base '!' _ hlm]
  by_cases halt0 : alt = []
  · subst halt0
    simp only [List.nil_append]
    have hm2 : matchLinkAt ('[' :: ']' :: '(' ::
        (replaceImageUrl base tgt ++ ')' :: ([] : Str))) = none := by
      simp [matchLinkAt, splitFirst]
    rw [subLink_nomatch base '[' _ hm2]
    rw [subLink_no_bracket base _ ?hnb]
    case hnb =>
      intro hmem
      simp only [List.mem_cons, List.mem_append, List.mem_singleton] at hmem
      rcases hmem with h | h | h | h
      · exact absurd h (by decide)
      · exact absurd h (by decide)
      · exact hT2 h
      · exact absurd h (by decide)
  · have hm2 := matchLinkAt_construct alt (replaceImageUrl base tgt) [] halt halt0 hT0 hT1
    rw [subLink_match base '[' (alt ++ ']' :: '(' :: (replaceImageUrl base tgt ++ ')' :: []))
      alt (replaceImageUrl base tgt) [] hm2,
      subLink_nil, List.append_nil,
      replaceLink_on_image_output base tgt hbs hbn ht0]
    simp [str]

/-- Claim C3, counterexample.  The claim's "iff" fails in the only-if
direction: an image target `mailto:x@y` and a link target
`data:text/plain,hi` start with none of the respective skip prefixes, yet
both are left unchanged, because `urljoin` returns targets with a
non-relative scheme as they are. -/
theorem claim_C3_counterexample :
    fixRelativeUrls (str "![a](mailto:x@y)") (str "https://site.test/blog/post") =
      str "![a](mailto:x@y)" ∧
    pyStartsWithAny imageSkips (str "mailto:x@y") = false ∧
    fixRelativeUrls (str "[d](data:text/plain,hi)") (str "https://site.test/blog/post") =
      str "[d](data:text/plain,hi)" ∧
    pyStartsWithAny linkSkips (str "data:text/plain,hi") = false := by decide

/-- Claim C3, amended (corrected).  For every base URL and target: an image
target is left unchanged *if* it starts with `http://`, `https://`, `//`
or `data:`, and is otherwise resolved against the base URL with standard
relative-URL resolution (`urljoin`, which may itself return the target
unchanged, e.g. for foreign-scheme targets); a link target is left
unchanged *if* it starts with `http://`, `https://`, `//`, `#` or
`mailto:`, and is otherwise resolved with `urljoin`.  In particular, with
base `https://site.test/blog/post` the markdown `[x](../img.png)`
rewrites to `[x](https://site.test/img.png)`. -/
theorem claim_C3 (baseUrl tgt : Str) :
    (pyStartsWithAny imageSkips tgt = true → replaceImageUrl baseUrl tgt = tgt) ∧
    (pyStartsWithAny imageSkips tgt = false →
      replaceImageUrl baseUrl tgt = urljoinM baseUrl tgt) ∧
    (pyStartsWithAny linkSkips tgt = true → replaceLinkUrl baseUrl tgt = tgt) ∧
    (pyStartsWithAny linkSkips tgt = false →
      replaceLinkUrl baseUrl tgt = urljoinM baseUrl tgt) ∧
    fixRelativeUrls (str "[x](../img.png)") (str "https://site.test/blog/post") =
      str "[x](https://site.test/img.png)" := by
  refine ⟨fun h => ?_, fun h => ?_, fun h => ?_, fun h => ?_, by decide⟩
  · rw [replaceImageUrl, if_pos h]
  · rw [replaceImageUrl, if_neg (by simp [h])]
  · rw [replaceLinkUrl, if_pos h]
  · rw [replaceLinkUrl, if_neg (by simp [h])]

/-- Witness for `claim_C3` with both screen outcomes exercised. -/
theorem claim_C3_witness :
    pyStartsWithAny imageSkips (str "https://x/y") = true ∧
    replaceImageUrl (str "https://site.test/blog/post") (str "https://x/y") =
      str "https://x/y" ∧
    pyStartsWithAny imageSkips (str "../img.png") = false ∧
    replaceImageUrl (str "https://site.test/blog/post") (str "../img.png") =
      urljoinM (str "https://site.test/blog/post") (str "../img.png") :=
  ⟨by decide,
   (claim_C3 (str "https://site.test/blog/post") (str "https://x/y")).1 (by decide),
   by decide,
   (claim_C3 (str "https://site.test/blog/post") (str "../img.png")).2.1 (by decide)⟩

/-- Claim C10, counterexample.  The image construct `![](http://x[y](z)`
(empty alt text, `[` inside the target) has its target left unchanged by
the image rule, yet the subsequent link pass matches `[y](z)` inside the
target and rewrites it, so the construct does not survive the two passes
with only the image rule applied. -/
theorem claim_C10_counterexample :
    replaceImageUrl (str "https://site.test/blog/post") (str "http://x[y](z") =
      str "http://x[y](z" ∧
    fixRelativeUrls (str "![](http://x[y](z)") (str "https://site.test/blog/post") ≠
      (str "![](http://x[y](z)") := by decide

/-- Claim C10, amended (corrected).  Image-before-link ordering keeps image
constructs intact under the side conditions the scanner needs: for an
image construct `![alt](tgt)` whose alt text contains no `]`, whose target
is nonempty without `)`, whose image-rule result is nonempty and free of
`)` and `[`, and whose base URL parses to scheme `http`/`https` with a
nonempty host, the full rewriting pipeline maps the construct to exactly
the image rule's output. -/
theorem claim_C10 (base alt tgt : Str)
    (halt : ']' ∉ alt)
    (ht0 : tgt ≠ []) (ht1 : ')' ∉ tgt)
    (hT1 : ')' ∉ replaceImageUrl base tgt)
    (hT2 : '[' ∉ replaceImageUrl base tgt)
    (hT0 : replaceImageUrl base tgt ≠ [])
    (hbs : (urlsplitM [] base).scheme = str "http" ∨
           (urlsplitM [] base).scheme = str "https")
    (hbn : (urlsplitM [] base).netloc ≠ []) :
    fixRelativeUrls (str "![" ++ alt ++ str "](" ++ tgt ++ str ")") base =
      str "![" ++ alt ++ str "](" ++ replaceImageUrl base tgt ++ str ")" :=
  image_construct_stable base alt tgt halt ht0 ht1 hT1 hT2 hT0 hbs hbn

/-- Witness for `claim_C10`: `![a](../img.png)` against
`https://site.test/blog/post`. -/
theorem claim_C10_witness :
    (']' ∉ str "a") ∧ str "../img.png" ≠ ([] : Str) ∧ (')' ∉ str "../img.png") ∧
    (')' ∉ replaceImageUrl (str "https://site.test/blog/post") (str "../img.png")) ∧
    ('[' ∉ replaceImageUrl (str "https://site.test/blog/post") (str "../img.png")) ∧
    replaceImageUrl (str "https://site.test/blog/post") (str "../img.png") ≠ [] ∧
    fixRelativeUrls (str "![" ++ str "a" ++ str "](" ++ str "../img.png" ++ str ")")
        (str "https://site.test/blog/post") =
      str "![" ++ str "a" ++ str "](" ++
        replaceImageUrl (str "https://site.test/blog/post") (str "../img.png") ++ str ")" :=
  ⟨by decide, by decide, by decide, by decide, by decide, by decide,
   claim_C10 (str "https://site.test/blog/post") (str "a") (str "../img.png")
     (by decide) (by decide) (by decide) (by decide) (by decide) (by decide)
     (by decide) (by decide)⟩

theorem findQ_append {α : Type} (p : α → Bool) (l1 l2 : List α) :
    (l1 ++ l2).find? p =
      match l1.find? p with
      | some x => some x
      | none => l2.find? p := by
  induction l1 with
  | nil => simp
  | cons a rest ih =>
    by_cases hp : p a
    · simp [List.find?, hp]
    · simp only [List.cons_append, List.find?, hp, Bool.false_eq_true, if_false]
      rw [List.append_eq]
      rw [ih]

mutual

theorem findN_preorder (p : Node → Bool) (hp : ∀ s, p (.text s) = false) (n : Node) :
    findN p n = (preorderN n).find? p := by
  cases n with
  | text s => simp [findN, preorderN, List.find?, hp]
  | elem t i c ch =>
    by_cases hpc : p (.elem t i c ch)
    · simp [findN, preorderN, List.find?, hpc]
    · simp only [findN, preorderN, List.find?, hpc, if_false, Bool.false_eq_true]
      exact findL_preorder p hp ch

theorem findL_preorder (p : Node → Bool) (hp : ∀ s, p (.text s) = false) (l : Soup) :
    findL p l = (preorderL l).find? p := by
  cases l with
  | nil => rfl
  | cons n rest =>
    simp only [findL, preorderL]
    rw [findQ_append, ← findN_preorder p hp n, ← findL_preorder p hp rest]
    cases findN p n <;> rfl

end

/-- Claim C1, counterexample.  On `soupC1` the claim predicts the
`<section class="content">` element (its class contains "content"), but
the code restricts the class heuristic to `div` elements
(`soup.find("div", class_=...)`), finds nothing, and serializes the whole
document instead. -/
theorem claim_C1_counterexample :
    containsSub (str "content") (toLowerStr (str "content")) = true ∧
    extractContent none [] soupC1 (str "https://example.com/x") =
      serializeL (cleanL soupC1) ∧
    extractContent none [] soupC1 (str "https://example.com/x") ≠
      serializeN (Node.elem (str "section") none [str "content"]
        [Node.text (str "X")]) := by decide

/-- Claim C1, amended (corrected).  When no selector is determined, the
extractor follows the fallback chain on the noise-cleaned tree in
document order — first `article`, else first `main`, else first **div**
whose class contains "content" case-insensitively, else the body, else
the whole document — where each `or`-step also skips a found element
that has no children (BeautifulSoup tag truthiness), and a falsy final
candidate likewise falls back to the whole document. -/
theorem claim_C1 (html : Soup) (rules : List (Str × Str)) (url : Str)
    (hmiss : getSelectorForUrl rules url = none) :
    extractContent none rules html url =
      finalStr
        (orTruthy ((preorderL (cleanL html)).find? (isTag (str "article")))
          (orTruthy ((preorderL (cleanL html)).find? (isTag (str "main")))
            (orTruthy ((preorderL (cleanL html)).find? isContentDiv)
              ((preorderL (cleanL html)).find? (isTag (str "body"))))))
        (cleanL html) := by
  unfold extractContent
  have hdet : determineSelector none rules url = none := by
    unfold determineSelector pyOrSelector
    exact hmiss
  rw [hdet]
  simp only [autoDetect]
  rw [findL_preorder _ (fun s => rfl) (cleanL html),
    findL_preorder _ (fun s => rfl) (cleanL html),
    findL_preorder _ (fun s => rfl) (cleanL html),
    findL_preorder _ (fun s => rfl) (cleanL html)]

/-- Witness for `claim_C1` on a concrete document (empty rule table, so
the rule lookup misses). -/
theorem claim_C1_witness :
    getSelectorForUrl [] (str "https://example.com/x") = none ∧
    extractContent none [] soupC1 (str "https://example.com/x") =
      finalStr
        (orTruthy ((preorderL (cleanL soupC1)).find? (isTag (str "article")))
          (orTruthy ((preorderL (cleanL soupC1)).find? (isTag (str "main")))
            (orTruthy ((preorderL (cleanL soupC1)).find? isContentDiv)
              ((preorderL (cleanL soupC1)).find? (isTag (str "body"))))))
        (cleanL soupC1) :=
  ⟨by decide, claim_C1 soupC1 [] (str "https://example.com/x") (by decide)⟩

/-- Claim C2, counterexample.  For `https://blog.www.example.com/x` the
claim's lookup key (host with a leading `www.` stripped, i.e. the host
itself — its `www.` is not leading) is present in the rule table, yet the
code determines no selector, because `_get_selector_for_url` removes
every occurrence of `"www."` from the host and looks up
`blog.example.com` instead. -/
theorem claim_C2_counterexample :
    specLeadingWwwDomain (str "https://blog.www.example.com/x") =
      str "blog.www.example.com" ∧
    lookupRule rulesC2www (str "blog.www.example.com") = some (str ".article") ∧
    determineSelector none rulesC2www (str "https://blog.www.example.com/x") =
      none := by decide

/-- Claim C2, amended (corrected).  Selector precedence: a nonempty
caller-supplied selector always wins; with no caller selector the code
uses the rule-table entry for the URL's host with every occurrence of
`www.` removed (not only a leading one); and in the concrete precedence
scenario — explicit `#main`, rule `.article` for the same domain, HTML
containing both — extraction returns the `#main` element's content. -/
theorem claim_C2 :
    (∀ (s : Str) (rules : List (Str × Str)) (url : Str), s ≠ [] →
      determineSelector (some s) rules url = some s) ∧
    (∀ (rules : List (Str × Str)) (url : Str),
      determineSelector none rules url =
        lookupRule rules (pyReplace (str "www.") [] (urlsplitM [] url).netloc)) ∧
    extractContent (some (str "#main")) rulesC2 soupC2 (str "https://site.test/a") =
      serializeN mainNodeC2 := by
  refine ⟨fun s rules url hs => ?_, fun rules url => rfl, by decide⟩
  change (if s = [] then getSelectorForUrl rules url else some s) = some s
  rw [if_neg hs]

/-- Witness for `claim_C2`: the explicit selector `#main` overrides the
rule `.article`. -/
theorem claim_C2_witness :
    str "#main" ≠ ([] : Str) ∧
    determineSelector (some (str "#main")) rulesC2 (str "https://site.test/a") =
      some (str "#main") :=
  ⟨by decide, claim_C2.1 (str "#main") rulesC2 (str "https://site.test/a") (by decide)⟩

/-- Model: `startswith` holds on appended prefixes. -/
theorem pyStartsWith_append (pre t : Str) : pyStartsWith pre (pre ++ t) = true := by
  unfold pyStartsWith
  exact List.isPrefixOf_iff_prefix.mpr ⟨t, rfl⟩

/-- Claim C6 (confirmed).  For every URL matched by the academic-paper
pattern, the URL handed to `_download_pdf` is the canonical PDF URL built
from the extracted `digits.digits` identifier, and neither content
extraction nor link rewriting runs on that request; abstract-page and
pdf-page forms of the same identifier map to the same canonical PDF URL
(instantiated at `1234.5678`). -/
theorem claim_C6 :
    (∀ (env : ConvertEnv) (useBrowser : Bool) (cs : Option Str)
        (rules : List (Str × Str)) (url : Str),
      isArxivUrl url = true →
        (convert env useBrowser cs rules url).pdfDownloadUrl =
          some (getArxivPdfUrl url) ∧
        (convert env useBrowser cs rules url).ranExtraction = false ∧
        (convert env useBrowser cs rules url).ranLinkRewrite = false) ∧
    (∀ url pid : Str, searchArxiv url = some pid →
      getArxivPdfUrl url = str "https://arxiv.org/pdf/" ++ pid ++ str ".pdf") ∧
    (isArxivUrl (str "https://arxiv.org/abs/1234.5678") = true ∧
     isArxivUrl (str "https://arxiv.org/pdf/1234.5678") = true ∧
     getArxivPdfUrl (str "https://arxiv.org/abs/1234.5678") =
       str "https://arxiv.org/pdf/1234.5678.pdf" ∧
     getArxivPdfUrl (str "https://arxiv.org/pdf/1234.5678") =
       str "https://arxiv.org/pdf/1234.5678.pdf") := by
  refine ⟨fun env useBrowser cs rules url h => ?_, fun url pid h => ?_, by decide⟩
  · unfold convert
    rw [if_pos h]
    cases env.downloadPdf (getArxivPdfUrl url) <;> simp
  · unfold getArxivPdfUrl
    rw [h]

/-- Witness for `claim_C6` at the abstract-page URL. -/
theorem claim_C6_witness :
    isArxivUrl (str "https://arxiv.org/abs/1234.5678") = true ∧
    (convert envOk false none [] (str "https://arxiv.org/abs/1234.5678")).pdfDownloadUrl =
      some (getArxivPdfUrl (str "https://arxiv.org/abs/1234.5678")) ∧
    (convert envOk false none [] (str "https://arxiv.org/abs/1234.5678")).ranExtraction =
      false ∧
    (convert envOk false none [] (str "https://arxiv.org/abs/1234.5678")).ranLinkRewrite =
      false :=
  ⟨by decide,
   claim_C6.1 envOk false none [] (str "https://arxiv.org/abs/1234.5678") (by decide)⟩

/-- Claim C7 (confirmed).  Default strategy: a requests failure triggers the
single browser fallback — a browser failure then propagates, a browser
success is used (with the fallback recorded); a requests success never
touches the browser fallback.  Document-download (arXiv) case: a download
failure propagates directly, with no fallback. -/
theorem claim_C7 :
    (∀ (env : ConvertEnv) (cs : Option Str) (rules : List (Str × Str)) (url e : Str),
      isArxivUrl url = false →
      env.requestsFetch url = Except.error e →
        (convert env false cs rules url).usedBrowserFallback = true ∧
        (∀ e2 : Str, env.browserFetch url = Except.error e2 →
          (convert env false cs rules url).res = Except.error e2) ∧
        (∀ h : Str, env.browserFetch url = Except.ok h →
          (convert env false cs rules url).res =
            Except.ok (defaultBody env cs rules url h))) ∧
    (∀ (env : ConvertEnv) (cs : Option Str) (rules : List (Str × Str)) (url h : Str),
      isArxivUrl url = false →
      env.requestsFetch url = Except.ok h →
        (convert env false cs rules url).usedBrowserFallback = false ∧
        (convert env false cs rules url).res =
          Except.ok (defaultBody env cs rules url h)) ∧
    (∀ (env : ConvertEnv) (useBrowser : Bool) (cs : Option Str)
        (rules : List (Str × Str)) (url e : Str),
      isArxivUrl url = true →
      env.downloadPdf (getArxivPdfUrl url) = Except.error e →
        (convert env useBrowser cs rules url).res = Except.error e ∧
        (convert env useBrowser cs rules url).usedBrowserFallback = false) := by
  refine ⟨fun env cs rules url e harx hreq => ?_,
          fun env cs rules url h harx hreq => ?_,
          fun env useBrowser cs rules url e harx hdl => ?_⟩
  · unfold convert
    rw [if_neg (by rw [harx]; simp), if_neg (Bool.false_ne_true), hreq]
    refine ⟨?_, fun e2 hb => ?_, fun h hb => ?_⟩
    · cases env.browserFetch url <;> simp
    · rw [hb]
    · rw [hb]
  · unfold convert
    rw [if_neg (by rw [harx]; simp), if_neg (Bool.false_ne_true), hreq]
    exact ⟨rfl, rfl⟩
  · unfold convert
    rw [if_pos harx, hdl]
    exact ⟨rfl, rfl⟩

/-- Witness for `claim_C7`: failed requests fetch on a non-arXiv URL, and
a failed PDF download on an arXiv URL. -/
theorem claim_C7_witness :
    isArxivUrl (str "https://example.com/a") = false ∧
    envReqFail.requestsFetch (str "https://example.com/a") =
      Except.error (str "connection refused") ∧
    (convert envReqFail false none [] (str "https://example.com/a")).usedBrowserFallback =
      true ∧
    isArxivUrl (str "https://arxiv.org/abs/1234.5678") = true ∧
    (convert envReqFail false none [] (str "https://arxiv.org/abs/1234.5678")).res =
      Except.error (str "download failed") :=
  ⟨by decide, by decide,
   (claim_C7.1 envReqFail none [] (str "https://example.com/a")
     (str "connection refused") (by decide) (by decide)).1,
   by decide,
   (claim_C7.2.2 envReqFail false none [] (str "https://arxiv.org/abs/1234.5678")
     (str "download failed") (by decide) (by decide)).1⟩

/-- Claim C8, counterexample.  A local `.txt` file whose content begins with
`# Source: https://a` converts (pass-through) to output that begins with
such a prefix, although the input is a file path — the claim's "never"
direction fails. -/
theorem claim_C8_counterexample :
    isUrlInput (str "notes.txt") = false ∧
    tomd feC8 envOk [] (str "notes.txt") =
      Except.ok (str "# Source: https://a\n\nbody") ∧
    pyStartsWith (str "# Source: ") (str "# Source: https://a\n\nbody") = true := by
  decide

/-- Claim C8, amended (corrected).  Every successful URL conversion returns
Markdown beginning with `# Source: <original URL>` and a blank line; a
file-path conversion returns the file converter's output with no prefix
added by the pipeline (so it begins with such a prefix only when the
converter output itself does). -/
theorem claim_C8 :
    (∀ (env : ConvertEnv) (useBrowser : Bool) (cs : Option Str)
        (rules : List (Str × Str)) (url out : Str),
      (convert env useBrowser cs rules url).res = Except.ok out →
        pyStartsWith (str "# Source: " ++ url ++ str "\n\n") out = true) ∧
    (∀ (fe : FileEnv) (ue : ConvertEnv) (rules : List (Str × Str))
        (input content : Str) (k : ConverterKind),
      isUrlInput input = false →
      fe.read input = some content →
      getConverter (toLowerStr (pathSuffix input)) = Except.ok k →
        tomd fe ue rules input = Except.ok (applyConverter fe k content)) := by
  constructor
  · intro env useBrowser cs rules url out h
    unfold convert at h
    by_cases harx : isArxivUrl url = true
    · rw [if_pos harx] at h
      cases hdl : env.downloadPdf (getArxivPdfUrl url) with
      | error e => rw [hdl] at h; cases h
      | ok pdfFile =>
        rw [hdl] at h
        simp only [Except.ok.injEq] at h
        rw [← h]
        simpa [List.append_assoc] using
          pyStartsWith_append (str "# Source: " ++ url ++ str "\n\n")
            (pyStrip (env.pdfConvert pdfFile))
    · rw [if_neg harx] at h
      by_cases hub : useBrowser = true
      · rw [if_pos hub] at h
        cases hb : env.browserFetch url with
        | error e => rw [hb] at h; cases h
        | ok html =>
          rw [hb] at h
          simp only [Except.ok.injEq] at h
          rw [← h]
          unfold defaultBody
          simpa [List.append_assoc] using
            pyStartsWith_append (str "# Source: " ++ url ++ str "\n\n") _
      · rw [if_neg hub] at h
        cases hr : env.requestsFetch url with
        | ok html =>
          rw [hr] at h
          simp only [Except.ok.injEq] at h
          rw [← h]
          unfold defaultBody
          simpa [List.append_assoc] using
            pyStartsWith_append (str "# Source: " ++ url ++ str "\n\n") _
        | error e =>
          rw [hr] at h
          cases hb : env.browserFetch url with
          | error e2 => rw [hb] at h; cases h
          | ok html =>
            rw [hb] at h
            simp only [Except.ok.injEq] at h
            rw [← h]
            unfold defaultBody
            simpa [List.append_assoc] using
              pyStartsWith_append (str "# Source: " ++ url ++ str "\n\n") _
  · intro fe ue rules input content k hurl hread hconv
    unfold tomd
    rw [if_neg (by rw [hurl]; simp), hread, hconv]

/-- Witness for `claim_C8`: a successful URL conversion and a `.md`
file conversion. -/
theorem claim_C8_witness :
    (convert envOk false none [] (str "http://h")).res =
      Except.ok (defaultBody envOk none [] (str "http://h") (str "H")) ∧
    pyStartsWith (str "# Source: " ++ str "http://h" ++ str "\n\n")
      (defaultBody envOk none [] (str "http://h") (str "H")) = true ∧
    isUrlInput (str "readme.md") = false ∧
    feC8.read (str "readme.md") = none ∧
    tomd feC8 envOk [] (str "notes.txt") =
      Except.ok (applyConverter feC8 ConverterKind.text (str "# Source: https://a\n\nbody")) :=
  ⟨by decide,
   claim_C8.1 envOk false none [] (str "http://h")
     (defaultBody envOk none [] (str "http://h") (str "H")) (by decide),
   by decide, by decide,
   claim_C8.2 feC8 envOk [] (str "notes.txt") (str "# Source: https://a\n\nbody")
     ConverterKind.text (by decide) (by decide) (by decide)⟩

/-- Claim C9 (confirmed).  Dispatch on the lowercased extension: each of
`.html/.htm/.txt/.md/.pdf/.docx` selects the matching converter; any
other extension fails with an error naming that extension and listing the
full sorted supported set, and `tomd` propagates that error for local
files. -/
theorem claim_C9 (path : Str) :
    (toLowerStr (pathSuffix path) = str ".html" ∨
        toLowerStr (pathSuffix path) = str ".htm" →
      getConverter (toLowerStr (pathSuffix path)) = Except.ok ConverterKind.html) ∧
    (toLowerStr (pathSuffix path) = str ".txt" ∨
        toLowerStr (pathSuffix path) = str ".md" →
      getConverter (toLowerStr (pathSuffix path)) = Except.ok ConverterKind.text) ∧
    (toLowerStr (pathSuffix path) = str ".pdf" →
      getConverter (toLowerStr (pathSuffix path)) = Except.ok ConverterKind.pdf) ∧
    (toLowerStr (pathSuffix path) = str ".docx" →
      getConverter (toLowerStr (pathSuffix path)) = Except.ok ConverterKind.docx) ∧
    (toLowerStr (pathSuffix path) ∉ converterMap.map (fun r => r.1) →
      getConverter (toLowerStr (pathSuffix path)) =
        Except.error (str "Unsupported file format: " ++ toLowerStr (pathSuffix path) ++
          str ". Supported formats: .docx, .htm, .html, .md, .pdf, .txt")) ∧
    (∀ (fe : FileEnv) (ue : ConvertEnv) (rules : List (Str × Str)) (content : Str),
      isUrlInput path = false →
      fe.read path = some content →
      toLowerStr (pathSuffix path) ∉ converterMap.map (fun r => r.1) →
      tomd fe ue rules path =
        Except.error (str "Unsupported file format: " ++ toLowerStr (pathSuffix path) ++
          str ". Supported formats: .docx, .htm, .html, .md, .pdf, .txt")) := by
  have herr : ∀ hnot : toLowerStr (pathSuffix path) ∉ converterMap.map (fun r => r.1),
      getConverter (toLowerStr (pathSuffix path)) =
        Except.error (str "Unsupported file format: " ++ toLowerStr (pathSuffix path) ++
          str ". Supported formats: .docx, .htm, .html, .md, .pdf, .txt") := by
    intro hnot
    have hfind : converterMap.find?
        (fun r => decide (r.1 = toLowerStr (pathSuffix path))) = none := by
      rw [List.find?_eq_none]
      intro x hx
      simp only [decide_eq_true_eq]
      intro heq
      exact hnot (by rw [← heq]; exact List.mem_map_of_mem _ hx)
    unfold getConverter
    rw [hfind]
    have hsup : (str ". Supported formats: " ++ supportedList : Str) =
        str ". Supported formats: .docx, .htm, .html, .md, .pdf, .txt" := by decide
    rw [hsup]
  refine ⟨fun h => ?_, fun h => ?_, fun h => ?_, fun h => ?_, herr,
    fun fe ue rules content hurl hread hnot => ?_⟩
  · rcases h with h | h <;> rw [h] <;> decide
  · rcases h with h | h <;> rw [h] <;> decide
  · rw [h]; decide
  · rw [h]; decide
  · unfold tomd
    rw [if_neg (by rw [hurl]; simp), hread, herr hnot]

/-- Witness for `claim_C9` at a path with an unsupported extension. -/
theorem claim_C9_witness :
    toLowerStr (pathSuffix (str "doc.xyz")) = str ".xyz" ∧
    (str ".xyz" ∉ converterMap.map (fun r => r.1)) ∧
    getConverter (toLowerStr (pathSuffix (str "doc.xyz"))) =
      Except.error (str "Unsupported file format: " ++
        toLowerStr (pathSuffix (str "doc.xyz")) ++
        str ". Supported formats: .docx, .htm, .html, .md, .pdf, .txt") ∧
    getConverter (toLowerStr (pathSuffix (str "page.HTML"))) =
      Except.ok ConverterKind.html :=
  ⟨by decide, by decide,
   (claim_C9 (str "doc.xyz")).2.2.2.2.1 (by decide),
   (claim_C9 (str "page.HTML")).1 (Or.inl (by decide))⟩

end Tomd
